import Mathlib

/-
  Verification of the sealed-bid carry-over auction backend.

  Shallow embedding of the TypeScript sources:
  - domain entities (`Bid`, `Round`, `Auction`, `Wallet`, wallet ledger) from
    `src/domain/entities/*`;
  - the ranking rule `rankBids` from `src/domain/services/ranking.ts`
    (JavaScript `Array.prototype.sort` is stable per ECMAScript 2019, so the
    comparator `(a, b) => b.amount - a.amount || a.timestamp - b.timestamp`
    is embedded as a stable sort by the non-strict total relation `bidLe`);
  - the anti-sniping helpers from `src/domain/services/antiSniping.ts`;
  - the Mongo-backed repositories from
    `src/infrastructure/repositories/mongoRepositories.ts`, with collections
    embedded as lists, `updateOne` as first-match update, and the ambient
    Mongo transaction as all-or-nothing state passing (`Except`: an `error`
    result means the transaction aborted and the store is unchanged);
  - the Redis leaderboard cache from `src/infrastructure/cache/leaderboard.ts`
    (a ZSET keyed by `(amount, inverse timestamp, member string)`; embedded as
    a list of entries ordered on read by amount desc, timestamp asc, id desc);
  - the BullMQ round scheduler (jobs keyed by round id; `reschedule` removes
    the pending job for the round and enqueues a new one);
  - the use cases `PlaceBidUseCase`, `FinishRoundUseCase`, `StartRoundUseCase`,
    `WithdrawFundsUseCase`, `CreditWalletUseCase`, and the
    `POST /admin/auction/:id/stop` route handler.

  JavaScript numbers are embedded as exact integers (`Int`) for amounts,
  balances and epoch-millisecond instants; `Math.ceil(x)` on the minimum-step
  computation is embedded as the exact rational ceiling. Ids are `String`s
  generated from a fresh counter. Realtime event publication is a pure
  side-output and is not modelled.
-/

namespace AuctionCore

/-- Bid status, from `src/domain/entities/bid.ts`. -/
inductive BidStatus
  | active
  | winning
  | outbid
  | refunded
deriving DecidableEq, Repr

/-- Auction status, from `src/domain/entities/auction.ts`. -/
inductive AuctionStatus
  | active
  | processing
  | finished
deriving DecidableEq, Repr

/-- Round status, from `src/domain/entities/round.ts`. -/
inductive RoundStatus
  | active
  | closed
deriving DecidableEq, Repr

/-- A bid, from `src/domain/entities/bid.ts`; `timestamp` is epoch ms. -/
structure Bid where
  id : String
  userId : String
  auctionId : String
  roundId : String
  amount : Int
  timestamp : Int
  status : BidStatus
deriving DecidableEq, Repr

/-- A round, from `src/domain/entities/round.ts`. -/
structure Round where
  id : String
  auctionId : String
  roundNumber : Int
  startTime : Int
  endTime : Int
  status : RoundStatus
deriving DecidableEq, Repr

/-- An auction, from `src/domain/entities/auction.ts` (`createdAt` dropped). -/
structure Auction where
  id : String
  title : String
  totalItems : Nat
  status : AuctionStatus
  currentRoundNumber : Int
deriving DecidableEq, Repr

/-- A user, from `src/domain/entities/user.ts`. -/
structure User where
  id : String
  username : String
  walletAddress : String
deriving DecidableEq, Repr

/-- A wallet document (`src/domain/entities/wallet.ts`), keyed by `userId`. -/
structure Wallet where
  userId : String
  availableBalance : Int
  lockedBalance : Int
deriving DecidableEq, Repr

/-- Optional metadata passed to `WalletRepository.updateBalances`
(`WalletLedgerMeta` in `src/domain/entities/walletLedger.ts`). -/
structure LedgerMeta where
  reason : String
  auctionId : Option String
  roundId : Option String
  bidId : Option String
  idempotencyKey : Option String
deriving DecidableEq, Repr

/-- An append-only wallet ledger entry (`WalletLedgerEntry`). -/
structure LedgerEntry where
  userId : String
  availableDelta : Int
  lockedDelta : Int
  reason : String
  auctionId : Option String
  roundId : Option String
  bidId : Option String
  idempotencyKey : Option String
deriving DecidableEq, Repr

/-- One Redis leaderboard member together with its auction key. -/
structure CacheEntry where
  auctionId : String
  bid : Bid
deriving DecidableEq, Repr

/-- One scheduled close-round job (BullMQ `close-round` queue). -/
structure Job where
  roundId : String
  runAt : Int
deriving DecidableEq, Repr

/-- The persistent state: Mongo collections, the Redis leaderboard cache,
the BullMQ job queue, and a fresh-id counter. -/
structure St where
  auctions : List Auction
  rounds : List Round
  bids : List Bid
  users : List User
  wallets : List Wallet
  ledger : List LedgerEntry
  cache : List CacheEntry
  jobs : List Job
  nextId : Nat
deriving DecidableEq, Repr

/-! ### Ranking rule (`src/domain/services/ranking.ts`) -/

/-- `bidLe a b` holds when the `rankBids` comparator orders `a` no later
than `b`: amount descending, ties broken by timestamp ascending. -/
def bidLe (a b : Bid) : Prop :=
  b.amount < a.amount ∨ (a.amount = b.amount ∧ a.timestamp ≤ b.timestamp)

instance (a b : Bid) : Decidable (bidLe a b) :=
  inferInstanceAs (Decidable (_ ∨ _))

instance : IsTotal Bid bidLe where
  total a b := by
    rcases lt_trichotomy a.amount b.amount with h | h | h
    · exact Or.inr (Or.inl h)
    · rcases le_total a.timestamp b.timestamp with ht | ht
      · exact Or.inl (Or.inr ⟨h, ht⟩)
      · exact Or.inr (Or.inr ⟨h.symm, ht⟩)
    · exact Or.inl (Or.inl h)

instance : IsTrans Bid bidLe where
  trans a b c hab hbc := by
    rcases hab with h1 | ⟨h1, t1⟩
    · rcases hbc with h2 | ⟨h2, t2⟩
      · exact Or.inl (h2.trans h1)
      · exact Or.inl (h2 ▸ h1)
    · rcases hbc with h2 | ⟨h2, t2⟩
      · exact Or.inl (h1 ▸ h2)
      · exact Or.inr ⟨h1.trans h2, t1.trans t2⟩

/-- `rankBids` from `src/domain/services/ranking.ts`: a stable sort of the
input by the comparator `(amount desc, timestamp asc)`. -/
def rankBids (bids : List Bid) : List Bid :=
  List.insertionSort bidLe bids

/-! ### Anti-sniping (`src/domain/services/antiSniping.ts`) -/

/-- `shouldExtendRound(endTime, now, thresholdMs)`. -/
def shouldExtendRound (endTime now thresholdMs : Int) : Bool :=
  decide (endTime - now ≤ thresholdMs)

/-- `extendRound(endTime, extensionMs)`. -/
def extendRound (endTime extensionMs : Int) : Int :=
  endTime + extensionMs

/-! ### Repositories (`src/infrastructure/repositories/mongoRepositories.ts`) -/

/-- `AuctionRepository.findById`. -/
def auctionFindById (st : St) (id : String) : Option Auction :=
  st.auctions.find? (fun a => decide (a.id = id))

/-- `AuctionRepository.update` (`updateOne` by `_id`, `$set` patch `f`). -/
def auctionUpdate (st : St) (id : String) (f : Auction → Auction) : St :=
  { st with auctions := st.auctions.map (fun a => if a.id = id then f a else a) }

/-- `RoundRepository.findById`. -/
def roundFindById (st : St) (id : String) : Option Round :=
  st.rounds.find? (fun r => decide (r.id = id))

/-- `RoundRepository.findActiveByAuction`: `findOne({auctionId, status:
"active"}, {sort: {roundNumber: -1}})` — the active round with the largest
round number. -/
def roundFindActiveByAuction (st : St) (aid : String) : Option Round :=
  (st.rounds.filter
      (fun r => decide (r.auctionId = aid ∧ r.status = RoundStatus.active))).foldl
    (fun acc r =>
      match acc with
      | none => some r
      | some r' => if r'.roundNumber < r.roundNumber then some r else acc)
    none

/-- `RoundRepository.update`. -/
def roundUpdate (st : St) (id : String) (f : Round → Round) : St :=
  { st with rounds := st.rounds.map (fun r => if r.id = id then f r else r) }

/-- `RoundRepository.create` (store-assigned fresh id). -/
def roundCreate (st : St) (aid : String) (roundNumber : Int)
    (startTime endTime : Int) (status : RoundStatus) : Round × St :=
  let r : Round :=
    { id := "round-" ++ toString st.nextId, auctionId := aid,
      roundNumber := roundNumber, startTime := startTime, endTime := endTime,
      status := status }
  (r, { st with rounds := st.rounds ++ [r], nextId := st.nextId + 1 })

/-- `BidRepository.findById`. -/
def bidFindById (st : St) (id : String) : Option Bid :=
  st.bids.find? (fun b => decide (b.id = id))

/-- `BidRepository.findActiveByAuction`: bids of the auction with status in
`{active, outbid}` (`winning` and `refunded` are excluded). -/
def bidsFindActiveByAuction (st : St) (aid : String) : List Bid :=
  st.bids.filter
    (fun b => decide (b.auctionId = aid ∧
      (b.status = BidStatus.active ∨ b.status = BidStatus.outbid)))

/-- `BidRepository.create` (store-assigned fresh id). -/
def bidCreate (st : St) (aid uid rid : String) (amount timestamp : Int)
    (status : BidStatus) : Bid × St :=
  let b : Bid :=
    { id := "bid-" ++ toString st.nextId, userId := uid, auctionId := aid,
      roundId := rid, amount := amount, timestamp := timestamp, status := status }
  (b, { st with bids := st.bids ++ [b], nextId := st.nextId + 1 })

/-- `BidRepository.updateMany(ids, {status})` (`updateMany` with `$in`). -/
def bidsUpdateManyStatus (st : St) (ids : List String) (status : BidStatus) : St :=
  { st with bids :=
      st.bids.map (fun b => if b.id ∈ ids then { b with status := status } else b) }

/-- `BidRepository.updateStatus(id, status)`. -/
def bidUpdateStatus (st : St) (id : String) (status : BidStatus) : St :=
  { st with bids :=
      st.bids.map (fun b => if b.id = id then { b with status := status } else b) }

/-- `UserRepository.createIfMissing`. -/
def userCreateIfMissing (st : St) (u : User) : St :=
  if (st.users.find? (fun x => decide (x.id = u.id))).isSome then st
  else { st with users := st.users ++ [u] }

/-- `WalletRepository.findByUserId`. -/
def walletFindByUserId (st : St) (uid : String) : Option Wallet :=
  st.wallets.find? (fun w => decide (w.userId = uid))

/-- `WalletRepository.createIfMissing`: upsert with initial balances (0, 0). -/
def walletCreateIfMissing (st : St) (uid : String) : St :=
  match walletFindByUserId st uid with
  | some _ => st
  | none =>
      { st with wallets := st.wallets ++
          [{ userId := uid, availableBalance := 0, lockedBalance := 0 }] }

/-- The Mongo filter of `updateBalances`: matches the wallet of `uid`, and
when a delta is negative additionally requires the corresponding balance to
be at least its absolute value. -/
def walletAdmits (uid : String) (da dl : Int) (w : Wallet) : Bool :=
  decide (w.userId = uid) &&
    decide (da < 0 → -da ≤ w.availableBalance) &&
    decide (dl < 0 → -dl ≤ w.lockedBalance)

/-- The `$inc` applied by `updateBalances` on a match. -/
def applyDelta (da dl : Int) (w : Wallet) : Wallet :=
  { w with availableBalance := w.availableBalance + da,
           lockedBalance := w.lockedBalance + dl }

/-- `updateOne`: update the first element matching `p`; `none` when
`matchedCount` is 0. -/
def listUpdateFirst (p : α → Bool) (f : α → α) : List α → Option (List α)
  | [] => none
  | x :: xs =>
      if p x then some (f x :: xs)
      else (listUpdateFirst p f xs).map (fun t => x :: t)

/-- The ledger document written by `updateBalances`:
`reason: meta?.reason ?? "adjustment"`, optional fields threaded from `meta`. -/
def mkLedgerEntry (uid : String) (da dl : Int) (meta : Option LedgerMeta) :
    LedgerEntry :=
  { userId := uid, availableDelta := da, lockedDelta := dl,
    reason := match meta with | some m => m.reason | none => "adjustment",
    auctionId := meta.bind (fun m => m.auctionId),
    roundId := meta.bind (fun m => m.roundId),
    bidId := meta.bind (fun m => m.bidId),
    idempotencyKey := meta.bind (fun m => m.idempotencyKey) }

/-- `WalletRepository.updateBalances`: conditional `$inc` plus a ledger
insert in the same transaction. A `matchedCount` of 0 throws
`Error("BALANCE_UPDATE_FAILED")`, aborting the ambient transaction, so the
`error` result leaves the store exactly as it was. -/
def updateBalances (st : St) (uid : String) (da dl : Int)
    (meta : Option LedgerMeta) : Except String St :=
  match listUpdateFirst (walletAdmits uid da dl) (applyDelta da dl) st.wallets with
  | none => .error "BALANCE_UPDATE_FAILED"
  | some ws =>
      .ok { st with wallets := ws,
                    ledger := st.ledger ++ [mkLedgerEntry uid da dl meta] }

/-! ### Leaderboard cache (`src/infrastructure/cache/leaderboard.ts`) -/

/-- Order in which `zrevrange` returns members: score (= amount) descending,
then member string descending, i.e. timestamp ascending (the member embeds
the padded inverse timestamp) and id descending on a full tie. -/
def cacheLe (a b : Bid) : Prop :=
  b.amount < a.amount ∨
    (a.amount = b.amount ∧
      (a.timestamp < b.timestamp ∨ (a.timestamp = b.timestamp ∧ b.id ≤ a.id)))

instance (a b : Bid) : Decidable (cacheLe a b) :=
  inferInstanceAs (Decidable (_ ∨ _))

instance : IsTotal Bid cacheLe where
  total a b := by
    rcases lt_trichotomy a.amount b.amount with h | h | h
    · exact Or.inr (Or.inl h)
    · rcases lt_trichotomy a.timestamp b.timestamp with ht | ht | ht
      · exact Or.inl (Or.inr ⟨h, Or.inl ht⟩)
      · rcases le_total a.id b.id with hid | hid
        · exact Or.inr (Or.inr ⟨h.symm, Or.inr ⟨ht.symm, hid⟩⟩)
        · exact Or.inl (Or.inr ⟨h, Or.inr ⟨ht, hid⟩⟩)
      · exact Or.inr (Or.inr ⟨h.symm, Or.inl ht⟩)
    · exact Or.inl (Or.inl h)

instance : IsTrans Bid cacheLe where
  trans a b c hab hbc := by
    rcases hab with h1 | ⟨h1, t1⟩
    · rcases hbc with h2 | ⟨h2, _⟩
      · exact Or.inl (h2.trans h1)
      · exact Or.inl (h2 ▸ h1)
    · rcases hbc with h2 | ⟨h2, t2⟩
      · exact Or.inl (h1 ▸ h2)
      · refine Or.inr ⟨h1.trans h2, ?_⟩
        rcases t1 with t1 | ⟨t1, i1⟩
        · rcases t2 with t2 | ⟨t2, _⟩
          · exact Or.inl (t1.trans t2)
          · exact Or.inl (t2 ▸ t1)
        · rcases t2 with t2 | ⟨t2, i2⟩
          · exact Or.inl (t1 ▸ t2)
          · exact Or.inr ⟨t1.trans t2, i2.trans i1⟩

/-- The members of an auction's leaderboard ZSET. -/
def cacheBids (st : St) (aid : String) : List Bid :=
  (st.cache.filter (fun e => decide (e.auctionId = aid))).map (fun e => e.bid)

/-- `LeaderboardCache.getTopBids`: the first `limit` members in `zrevrange`
order; the reconstructed bids carry `status: "active"` (the cached metadata
stores no status). -/
def cacheGetTop (st : St) (aid : String) (limit : Nat) : List Bid :=
  ((List.insertionSort cacheLe (cacheBids st aid)).take limit).map
    (fun b => { b with status := BidStatus.active })

/-- `LeaderboardCache.addBid` (`zadd` + `hset`, keyed by bid id). -/
def cacheAddBid (st : St) (aid : String) (b : Bid) : St :=
  { st with cache :=
      st.cache.filter (fun e => !(decide (e.auctionId = aid ∧ e.bid.id = b.id)))
        ++ [{ auctionId := aid, bid := b }] }

/-- `LeaderboardCache.removeBid` (`zrem` + `hdel`). -/
def cacheRemoveBid (st : St) (aid : String) (bidId : String) : St :=
  { st with cache :=
      st.cache.filter (fun e => !(decide (e.auctionId = aid ∧ e.bid.id = bidId))) }

/-! ### Round scheduler (`src/infrastructure/queue/bullmq.ts`) -/

/-- `RoundScheduler.scheduleCloseRound`: enqueue a closure job. -/
def jobSchedule (st : St) (rid : String) (runAt : Int) : St :=
  { st with jobs := st.jobs ++ [{ roundId := rid, runAt := runAt }] }

/-- `RoundScheduler.rescheduleCloseRound`: drop the pending job for the
round and enqueue a replacement at the new instant. -/
def jobReschedule (st : St) (rid : String) (runAt : Int) : St :=
  { st with jobs := st.jobs.filter (fun j => !(decide (j.roundId = rid)))
      ++ [{ roundId := rid, runAt := runAt }] }

/-! ### Configuration (`src/config/env.ts`) -/

/-- The configuration injected into the use cases. -/
structure Config where
  thresholdMs : Int
  extensionMs : Int
  leaderboardSize : Nat
  minStepPercent : Int
  roundDurationMs : Int
deriving DecidableEq, Repr

/-- Typed failure codes (`AppError.code` in the use cases, plus
`BALANCE_UPDATE_FAILED` for the plain `Error` thrown by the wallet
repository). -/
inductive ErrCode
  | INVALID_AMOUNT
  | BID_TOO_LOW
  | AUCTION_NOT_ACTIVE
  | ROUND_NOT_ACTIVE
  | ROUND_ENDED
  | INSUFFICIENT_FUNDS
  | BID_CREATE_FAILED
  | BALANCE_UPDATE_FAILED
  | AUCTION_NOT_FOUND
  | BID_NOT_FOUND
  | FORBIDDEN
  | WINNING_LOCKED
  | ALREADY_REFUNDED
deriving DecidableEq, Repr

/-! ### PlaceBid (`src/application/usecases/placeBid.ts`) -/

/-- `Math.ceil(topAmount * (1 + minStepPercent / 100))` — the required
minimum over the current top bid. JavaScript float arithmetic is embedded
as the exact rational ceiling. -/
def minRequiredAmount (topAmount : Int) (minStepPercent : Int) : Int :=
  Int.ceil ((topAmount : ℚ) * (1 + (minStepPercent : ℚ) / 100))

/-- Integer characterization of `minRequiredAmount` (Lean's `Int` division
by a positive divisor rounds towards negative infinity). -/
theorem minRequiredAmount_eq (t p : Int) :
    minRequiredAmount t p = -((-(t * (100 + p))) / 100) := by
  unfold minRequiredAmount
  have h1 : (t : ℚ) * (1 + (p : ℚ) / 100)
      = -((((-(t * (100 + p)) : Int)) : ℚ) / ((100 : Nat) : ℚ)) := by
    push_cast; ring
  rw [h1, Int.ceil_neg, Rat.floor_intCast_div_natCast]
  norm_num

/-- Steps 1 of `PlaceBidUseCase.execute` after the amount check: read
`top(1)` from the leaderboard and, when the cache is empty but eligible
bids exist in the store, prime the cache with the top `leaderboardSize`
ranked bids. Returns the top list (at most one element) and the state with
any priming writes applied. -/
def primeLeaderboard (cfg : Config) (st : St) (aid : String) : List Bid × St :=
  let topBids := cacheGetTop st aid 1
  if topBids.isEmpty then
    let fallbackBids := bidsFindActiveByAuction st aid
    if fallbackBids.isEmpty then (topBids, st)
    else
      let topRanked := (rankBids fallbackBids).take cfg.leaderboardSize
      let st' := topRanked.foldl (fun s b => cacheAddBid s aid b) st
      (topRanked.take 1, st')
  else (topBids, st)

/-- The top bid PlaceBid's minimum-step check sees: the head of the primed
top list (read-only view of `primeLeaderboard`). -/
def primedTop (cfg : Config) (st : St) (aid : String) : Option Bid :=
  (primeLeaderboard cfg st aid).1.head?

/-- Step 5 of `PlaceBidUseCase.execute`: under the round-scoped lock,
re-read the round; if it is still active and within the anti-sniping
threshold, extend `endTime` and reschedule the closure job. -/
def antiSnipingStep (cfg : Config) (rid : String) (now : Int) (st : St) : St :=
  match roundFindById st rid with
  | none => st
  | some freshRound =>
      if freshRound.status ≠ RoundStatus.active then st
      else if shouldExtendRound freshRound.endTime now cfg.thresholdMs then
        let newEnd := extendRound freshRound.endTime cfg.extensionMs
        let st' := roundUpdate st freshRound.id (fun r => { r with endTime := newEnd })
        jobReschedule st' freshRound.id newEnd
      else st

/-- Steps 2–5 of `PlaceBidUseCase.execute`: liveness checks, the admission
transaction (user/wallet ensure, funds pre-check, hold, bid create — rolled
back as a whole on failure), the leaderboard insert, and the anti-sniping
step. Returns the outcome together with the final state (state changes on
an error path, such as priming, persist — hence the pair). -/
def placeBidChecksAndTx (cfg : Config) (aid uid : String) (amount now : Int)
    (st : St) : Except ErrCode Bid × St :=
  match auctionFindById st aid with
  | none => (.error .AUCTION_NOT_ACTIVE, st)
  | some auction =>
      if auction.status ≠ AuctionStatus.active then (.error .AUCTION_NOT_ACTIVE, st)
      else
        match roundFindActiveByAuction st aid with
        | none => (.error .ROUND_NOT_ACTIVE, st)
        | some round =>
            if round.endTime < now then (.error .ROUND_ENDED, st)
            else
              let st1 := userCreateIfMissing st
                { id := uid, username := uid, walletAddress := "n/a" }
              let st2 := walletCreateIfMissing st1 uid
              match walletFindByUserId st2 uid with
              | none => (.error .INSUFFICIENT_FUNDS, st)
              | some wallet =>
                  if wallet.availableBalance < amount then
                    (.error .INSUFFICIENT_FUNDS, st)
                  else
                    match updateBalances st2 uid (-amount) amount none with
                    | .error _ => (.error .BALANCE_UPDATE_FAILED, st)
                    | .ok st3 =>
                        let p := bidCreate st3 aid uid round.id amount now
                          BidStatus.active
                        let st5 := cacheAddBid p.2 aid p.1
                        let st6 := antiSnipingStep cfg round.id now st5
                        (.ok p.1, st6)

/-- `PlaceBidUseCase.execute`: amount validation, the minimum-step check
against the (primed) leaderboard top, then liveness checks, the admission
transaction and the anti-sniping step. `now` is the server instant; the
source captures it between the liveness checks and the transaction, and the
whole call is embedded at that single instant. -/
def placeBid (cfg : Config) (aid uid : String) (amount now : Int) (st : St) :
    Except ErrCode Bid × St :=
  if amount ≤ 0 then (.error .INVALID_AMOUNT, st)
  else
    match primeLeaderboard cfg st aid with
    | (topBids, st') =>
        match topBids with
        | [] => placeBidChecksAndTx cfg aid uid amount now st'
        | top :: _ =>
            if amount < minRequiredAmount top.amount cfg.minStepPercent then
              (.error .BID_TOO_LOW, st')
            else placeBidChecksAndTx cfg aid uid amount now st'

/-! ### CreditWallet (`src/application/usecases/creditWallet.ts`) -/

/-- `CreditWalletUseCase.execute`: validate the amount, then in one
transaction ensure the user and wallet and apply `(+amount, 0)` with
`reason: "credit"`. -/
def creditWallet (uid : String) (amount : Int) (idk : Option String)
    (st : St) : Except ErrCode St :=
  if amount ≤ 0 then .error .INVALID_AMOUNT
  else
    let st1 := userCreateIfMissing st
      { id := uid, username := uid, walletAddress := "n/a" }
    let st2 := walletCreateIfMissing st1 uid
    match updateBalances st2 uid amount 0
        (some { reason := "credit", auctionId := none, roundId := none,
                bidId := none, idempotencyKey := idk }) with
    | .error _ => .error .BALANCE_UPDATE_FAILED
    | .ok st3 => .ok st3

/-! ### WithdrawFunds (`src/application/usecases/withdrawFunds.ts`) -/

/-- `WithdrawFundsUseCase.execute`: ownership and status checks, then in
one transaction apply `(+amount, -amount)` and set the bid `refunded`;
after commit remove the bid from the leaderboard cache. -/
def withdrawFunds (bidId uid : String) (st : St) : Except ErrCode St :=
  match bidFindById st bidId with
  | none => .error .BID_NOT_FOUND
  | some bid =>
      if bid.userId ≠ uid then .error .FORBIDDEN
      else if bid.status = BidStatus.winning then .error .WINNING_LOCKED
      else if bid.status = BidStatus.refunded then .error .ALREADY_REFUNDED
      else
        match updateBalances st uid bid.amount (-bid.amount) none with
        | .error _ => .error .BALANCE_UPDATE_FAILED
        | .ok st1 =>
            let st2 := bidUpdateStatus st1 bidId BidStatus.refunded
            .ok (cacheRemoveBid st2 bid.auctionId bid.id)

/-! ### FinishRound (`src/application/usecases/finishRound.ts`) -/

/-- The settle loop of the closure transaction: for each winner apply the
wallet delta `(0, -amount)` (no meta is passed). A failure aborts the
whole transaction. -/
def settleWinners (st : St) : List Bid → Except String St
  | [] => .ok st
  | b :: rest =>
      match updateBalances st b.userId 0 (-b.amount) none with
      | .error e => .error e
      | .ok st' => settleWinners st' rest

/-- `FinishRoundUseCase.execute`: idempotent no-op on a missing or closed
round; reschedule-and-return when `now < endTime`; otherwise the closure
transaction (rank eligible bids, mark top-`totalItems` winning and settle
them, mark the rest outbid, close the round, bump the auction's round
number), the cache cleanup, and — when the auction is still active — the
next round's creation and scheduling. An `error` result means the thrown
exception aborted the closure transaction, leaving the store unchanged. -/
def finishRound (cfg : Config) (roundId : String) (now : Int) (st : St) :
    Except String St :=
  match roundFindById st roundId with
  | none => .ok st
  | some round =>
      if round.status ≠ RoundStatus.active then .ok st
      else if now < round.endTime then .ok (jobReschedule st round.id round.endTime)
      else
        match auctionFindById st round.auctionId with
        | none => .error "AUCTION_NOT_FOUND"
        | some auction =>
            let ranked := rankBids (bidsFindActiveByAuction st round.auctionId)
            let winnerBids := ranked.take auction.totalItems
            let loserBids := ranked.drop auction.totalItems
            let st1 := bidsUpdateManyStatus st (winnerBids.map (fun b => b.id))
              BidStatus.winning
            match settleWinners st1 winnerBids with
            | .error e => .error e
            | .ok st2 =>
                let st3 := bidsUpdateManyStatus st2 (loserBids.map (fun b => b.id))
                  BidStatus.outbid
                let st4 := roundUpdate st3 round.id
                  (fun r => { r with status := RoundStatus.closed })
                let st5 := auctionUpdate st4 auction.id
                  (fun a => { a with currentRoundNumber := round.roundNumber })
                let st6 := winnerBids.foldl
                  (fun s b => cacheRemoveBid s round.auctionId b.id) st5
                if auction.status = AuctionStatus.active then
                  let p := roundCreate st6 round.auctionId (round.roundNumber + 1)
                    now (now + cfg.roundDurationMs) RoundStatus.active
                  let st8 := auctionUpdate p.2 round.auctionId
                    (fun a => { a with currentRoundNumber := p.1.roundNumber })
                  .ok (jobSchedule st8 p.1.id p.1.endTime)
                else .ok st6

/-! ### StartRound (`src/application/usecases/startRound.ts`) -/

/-- `StartRoundUseCase.execute`: return the existing active round if any
(rescheduling its closure to `now` when its `endTime` has been reached);
otherwise create round `currentRoundNumber + 1` over `[now, now +
roundDurationMs]` and schedule its closure. -/
def startRound (cfg : Config) (aid : String) (now : Int) (st : St) :
    Except ErrCode (Round × St) :=
  match auctionFindById st aid with
  | none => .error .AUCTION_NOT_FOUND
  | some auction =>
      if auction.status ≠ AuctionStatus.active then .error .AUCTION_NOT_ACTIVE
      else
        match roundFindActiveByAuction st aid with
        | some activeRound =>
            if activeRound.endTime ≤ now then
              .ok (activeRound, jobReschedule st activeRound.id now)
            else .ok (activeRound, st)
        | none =>
            let p := roundCreate st aid (auction.currentRoundNumber + 1) now
              (now + cfg.roundDurationMs) RoundStatus.active
            let st2 := auctionUpdate p.2 aid
              (fun a => { a with currentRoundNumber := p.1.roundNumber })
            .ok (p.1, jobSchedule st2 p.1.id p.1.endTime)

/-! ### Admin stop (`POST /admin/auction/:auctionId/stop`, presentation router) -/

/-- The stop route handler: set the auction `finished`; if an active round
exists, set its `endTime` to `now` and invoke `FinishRoundUseCase`. The
`endTime` write commits outside the closure transaction, so when
`finishRound` throws the handler reports a 500 but the retreated `endTime`
persists (the function returns the state in either case). -/
def adminStopAuction (cfg : Config) (aid : String) (now : Int) (st : St) : St :=
  let st1 := auctionUpdate st aid (fun a => { a with status := AuctionStatus.finished })
  match roundFindActiveByAuction st1 aid with
  | none => st1
  | some round =>
      let st2 := roundUpdate st1 round.id (fun r => { r with endTime := now })
      match finishRound cfg round.id now st2 with
      | .ok st3 => st3
      | .error _ => st2

/-! ### Concrete fixtures used by witnesses and counterexamples -/

/-- Configuration fixture: the documented defaults (threshold 60 s,
extension 120 s, top-10 leaderboard, 5% minimum step, 5-minute rounds). -/
def cfgW : Config :=
  { thresholdMs := 60000, extensionMs := 120000, leaderboardSize := 10,
    minStepPercent := 5, roundDurationMs := 300000 }

/-- The empty store. -/
def emptySt : St :=
  { auctions := [], rounds := [], bids := [], users := [], wallets := [],
    ledger := [], cache := [], jobs := [], nextId := 0 }

/-- Auction fixture: two items, active, at round 1. -/
def aucW : Auction :=
  { id := "a1", title := "t", totalItems := 2,
    status := AuctionStatus.active, currentRoundNumber := 1 }

/-- Round fixture: round 1 of `aucW`, active over `[0, 10000]`. -/
def rndW : Round :=
  { id := "r1", auctionId := "a1", roundNumber := 1, startTime := 0,
    endTime := 10000, status := RoundStatus.active }

/-- Bid fixture constructor for auction `a1` / round `r1`. -/
def mkBidW (i u : String) (amt ts : Int) (s : BidStatus) : Bid :=
  { id := i, userId := u, auctionId := "a1", roundId := "r1", amount := amt,
    timestamp := ts, status := s }

/-! ### Wallet repository lemmas -/

theorem listUpdateFirst_eq_none_iff {p : α → Bool} {f : α → α} :
    ∀ {l : List α}, listUpdateFirst p f l = none ↔ ∀ a ∈ l, p a = false := by
  intro l
  induction l with
  | nil => simp [listUpdateFirst]
  | cons x xs ih =>
      by_cases hp : p x = true
      · simp [listUpdateFirst, hp]
      · simp only [Bool.not_eq_true] at hp
        simp [listUpdateFirst, hp, ih]

theorem listUpdateFirst_mem {p : α → Bool} {f : α → α} :
    ∀ {l l' : List α}, listUpdateFirst p f l = some l' →
      ∀ a ∈ l', a ∈ l ∨ ∃ b, b ∈ l ∧ p b = true ∧ a = f b := by
  intro l
  induction l with
  | nil => intro l' h; simp [listUpdateFirst] at h
  | cons x xs ih =>
      intro l' h a ha
      by_cases hp : p x = true
      · simp only [listUpdateFirst, hp, if_pos] at h
        have h' : f x :: xs = l' := Option.some.inj h
        rcases List.mem_cons.mp (h' ▸ ha) with h1 | h1
        · exact Or.inr ⟨x, List.mem_cons_self x xs, hp, h1⟩
        · exact Or.inl (List.mem_cons_of_mem x h1)
      · simp only [listUpdateFirst, hp, if_neg, Bool.not_eq_true] at h
        rcases Option.map_eq_some'.mp h with ⟨t, ht, rfl⟩
        rcases List.mem_cons.mp ha with h1 | h1
        · exact Or.inl (h1 ▸ List.mem_cons_self x xs)
        · rcases ih ht a h1 with h2 | ⟨b, hb, hpb, rfl⟩
          · exact Or.inl (List.mem_cons_of_mem x h2)
          · exact Or.inr ⟨b, List.mem_cons_of_mem x hb, hpb, rfl⟩

theorem walletAdmits_userId {uid : String} {da dl : Int} {w : Wallet}
    (h : walletAdmits uid da dl w = true) : w.userId = uid := by
  simp only [walletAdmits, Bool.and_eq_true, decide_eq_true_eq] at h
  exact h.1.1

theorem walletAdmits_of (uid : String) (da dl : Int) (w : Wallet)
    (h1 : w.userId = uid) (h2 : da < 0 → -da ≤ w.availableBalance)
    (h3 : dl < 0 → -dl ≤ w.lockedBalance) : walletAdmits uid da dl w = true := by
  simp only [walletAdmits, h1, Bool.and_eq_true, decide_eq_true_eq]
  exact ⟨⟨trivial, h2⟩, h3⟩

/-- Propositional characterization of the `updateBalances` filter. -/
theorem walletAdmits_iff (uid : String) (da dl : Int) (w : Wallet) :
    walletAdmits uid da dl w = true ↔
      (w.userId = uid ∧ (da < 0 → -da ≤ w.availableBalance)
        ∧ (dl < 0 → -dl ≤ w.lockedBalance)) := by
  simp only [walletAdmits, Bool.and_eq_true, decide_eq_true_eq, and_assoc]

/-- `updateOne` with a `userId`-keyed filter over a `userId`-unique
collection updates exactly the matching wallet. -/
theorem listUpdateFirst_wallets_eq_map (uid : String) (da dl : Int) :
    ∀ (l : List Wallet), (l.map (fun w => w.userId)).Nodup →
      ∀ l', listUpdateFirst (walletAdmits uid da dl) (applyDelta da dl) l = some l' →
        l' = l.map (fun w => if w.userId = uid then applyDelta da dl w else w) := by
  intro l
  induction l with
  | nil => intro _ l' h; simp [listUpdateFirst] at h
  | cons x xs ih =>
      intro hnd l' h
      have hnd' : (xs.map (fun w => w.userId)).Nodup := (List.nodup_cons.mp hnd).2
      have hx : x.userId ∉ xs.map (fun w => w.userId) := (List.nodup_cons.mp hnd).1
      by_cases hp : walletAdmits uid da dl x = true
      · simp only [listUpdateFirst, hp, if_pos] at h
        have hxu : x.userId = uid := walletAdmits_userId hp
        have htail : xs.map (fun w => if w.userId = uid then applyDelta da dl w else w)
            = xs := by
          have hcg : ∀ w ∈ xs,
              (if w.userId = uid then applyDelta da dl w else w) = id w := by
            intro w hw
            have : w.userId ≠ uid := by
              intro hwu
              exact hx (hxu ▸ hwu ▸ List.mem_map_of_mem (fun w => w.userId) hw)
            simp [this]
          exact (List.map_congr_left hcg).trans (List.map_id xs)
        have h' : applyDelta da dl x :: xs = l' := Option.some.inj h
        rw [← h', List.map_cons, htail, if_pos hxu]
      · simp only [listUpdateFirst, hp, if_neg, Bool.not_eq_true] at h
        rcases Option.map_eq_some'.mp h with ⟨t, ht, rfl⟩
        have hxu : x.userId ≠ uid := by
          intro hxu
          have hnone : ∀ w ∈ xs, walletAdmits uid da dl w = false := by
            intro w hw
            by_contra hc
            simp only [Bool.not_eq_false] at hc
            have hmem : w.userId ∈ xs.map (fun w => w.userId) :=
              List.mem_map_of_mem (fun w => w.userId) hw
            rw [walletAdmits_userId hc, ← hxu] at hmem
            exact hx hmem
          rw [listUpdateFirst_eq_none_iff.mpr hnone] at ht
          exact Option.noConfusion ht
        simp [hxu, ih hnd' t ht]

/-- `updateBalances` fails exactly when no wallet document matches the
conditional filter. -/
theorem updateBalances_error_iff (st : St) (uid : String) (da dl : Int)
    (meta : Option LedgerMeta) :
    updateBalances st uid da dl meta = .error "BALANCE_UPDATE_FAILED"
      ↔ ∀ w ∈ st.wallets, walletAdmits uid da dl w = false := by
  unfold updateBalances
  rcases h : listUpdateFirst (walletAdmits uid da dl) (applyDelta da dl) st.wallets with
    _ | ws
  · simpa using listUpdateFirst_eq_none_iff.mp h
  · dsimp only
    constructor
    · intro hc; exact Except.noConfusion hc
    · intro hall
      rw [listUpdateFirst_eq_none_iff.mpr hall] at h
      exact Option.noConfusion h

/-- On success `updateBalances` increments exactly the matching wallet and
appends the ledger entry with the same deltas and meta, atomically, leaving
every other collection untouched. -/
theorem updateBalances_ok_spec {st : St} {uid : String} {da dl : Int}
    {meta : Option LedgerMeta} {st' : St}
    (hnd : (st.wallets.map (fun w => w.userId)).Nodup)
    (h : updateBalances st uid da dl meta = .ok st') :
    st'.wallets = st.wallets.map
        (fun w => if w.userId = uid then applyDelta da dl w else w)
      ∧ st'.ledger = st.ledger ++ [mkLedgerEntry uid da dl meta]
      ∧ st'.auctions = st.auctions ∧ st'.rounds = st.rounds
      ∧ st'.bids = st.bids ∧ st'.users = st.users
      ∧ st'.cache = st.cache ∧ st'.jobs = st.jobs
      ∧ st'.nextId = st.nextId := by
  unfold updateBalances at h
  rcases hu : listUpdateFirst (walletAdmits uid da dl) (applyDelta da dl) st.wallets with
    _ | ws
  · rw [hu] at h; exact Except.noConfusion h
  · rw [hu] at h
    have := listUpdateFirst_wallets_eq_map uid da dl st.wallets hnd ws hu
    cases h
    exact ⟨this, rfl, rfl, rfl, rfl, rfl, rfl, rfl, rfl⟩

/-- A wallet failing one of the balance conditions makes the whole filter
fail for every wallet of that user (given `userId`-uniqueness). -/
theorem updateBalances_error_of_cond {st : St} {uid : String} {da dl : Int}
    (meta : Option LedgerMeta) {w : Wallet}
    (hnd : (st.wallets.map (fun w => w.userId)).Nodup)
    (hw : walletFindByUserId st uid = some w)
    (hcond : (da < 0 ∧ w.availableBalance < -da) ∨
      (dl < 0 ∧ w.lockedBalance < -dl)) :
    updateBalances st uid da dl meta = .error "BALANCE_UPDATE_FAILED" := by
  have hwmem : w ∈ st.wallets := List.mem_of_find?_eq_some hw
  have hwu : w.userId = uid := by simpa using List.find?_some hw
  rw [updateBalances_error_iff]
  intro x hx
  rw [Bool.eq_false_iff]
  intro hadm
  rcases (walletAdmits_iff uid da dl x).mp hadm with ⟨hxu, h2, h3⟩
  have hxw : x = w := List.inj_on_of_nodup_map hnd hx hwmem (by rw [hxu, hwu])
  subst hxw
  rcases hcond with ⟨hda, hav⟩ | ⟨hdl, hlk⟩
  · exact absurd (h2 hda) (by omega)
  · exact absurd (h3 hdl) (by omega)

/-- Conversely, a failed `updateBalances` on an existing wallet means one
of the balance conditions is violated. -/
theorem updateBalances_cond_of_error {st : St} {uid : String} {da dl : Int}
    {meta : Option LedgerMeta} {w : Wallet}
    (hw : walletFindByUserId st uid = some w)
    (herr : updateBalances st uid da dl meta = .error "BALANCE_UPDATE_FAILED") :
    (da < 0 ∧ w.availableBalance < -da) ∨ (dl < 0 ∧ w.lockedBalance < -dl) := by
  have hwmem : w ∈ st.wallets := List.mem_of_find?_eq_some hw
  have hwu : w.userId = uid := by simpa using List.find?_some hw
  have hall := (updateBalances_error_iff st uid da dl meta).mp herr w hwmem
  have hall2 : ¬(w.userId = uid ∧ (da < 0 → -da ≤ w.availableBalance)
      ∧ (dl < 0 → -dl ≤ w.lockedBalance)) := by
    intro hc
    rw [(walletAdmits_iff uid da dl w).mpr hc] at hall
    exact Bool.noConfusion hall
  by_cases h2 : da < 0 → -da ≤ w.availableBalance
  · by_cases h3 : dl < 0 → -dl ≤ w.lockedBalance
    · exact absurd ⟨hwu, h2, h3⟩ hall2
    · push_neg at h3
      exact Or.inr h3
  · push_neg at h2
    exact Or.inl h2

/-! ### C3: updateBalances failure condition and ledger coupling -/

/-- C3 (amended): over a `userId`-unique wallet collection,
`updateBalances` fails — throwing the repository's generic
`BALANCE_UPDATE_FAILED` error, which callers surface as
`INSUFFICIENT_FUNDS` through their own pre-checks — when the user's wallet
document is missing, and otherwise exactly when `Δavail < 0` with
`available < |Δavail|` or `Δlock < 0` with `locked < |Δlock|`; the
`error` result is the aborted transaction, leaving the store unchanged,
and on success a ledger entry carrying the same deltas and the given meta
is written atomically with the balance increment. -/
theorem updateBalances_insufficient_spec (st : St) (uid : String)
    (da dl : Int) (meta : Option LedgerMeta)
    (hnd : (st.wallets.map (fun w => w.userId)).Nodup) :
    (walletFindByUserId st uid = none →
        updateBalances st uid da dl meta = .error "BALANCE_UPDATE_FAILED")
    ∧ (∀ w, walletFindByUserId st uid = some w →
        (updateBalances st uid da dl meta = .error "BALANCE_UPDATE_FAILED"
          ↔ ((da < 0 ∧ w.availableBalance < -da) ∨
              (dl < 0 ∧ w.lockedBalance < -dl))))
    ∧ (∀ st', updateBalances st uid da dl meta = .ok st' →
        st'.ledger = st.ledger ++ [mkLedgerEntry uid da dl meta]
          ∧ st'.wallets = st.wallets.map
              (fun w => if w.userId = uid then applyDelta da dl w else w)
          ∧ st'.bids = st.bids ∧ st'.rounds = st.rounds
          ∧ st'.auctions = st.auctions) := by
  refine ⟨fun h => ?_, fun w hw => ⟨fun herr => ?_, fun hcond => ?_⟩,
    fun st' h => ?_⟩
  · rw [updateBalances_error_iff]
    intro w hw
    by_contra hc
    simp only [Bool.not_eq_false] at hc
    have := List.find?_eq_none.mp h w hw
    simp only [decide_eq_true_eq] at this
    exact this (walletAdmits_userId hc)
  · exact updateBalances_cond_of_error hw herr
  · exact updateBalances_error_of_cond meta hnd hw hcond
  · obtain ⟨h1, h2, h3, h4, h5, _, _, _, _⟩ := updateBalances_ok_spec hnd h
    exact ⟨h2, h1, h5, h4, h3⟩

/-- C3 counterexample: when the user has no wallet document,
`updateBalances` fails even though both deltas are non-negative, so
neither of the claim's two failure conditions holds — the claim's
"exactly when" is too narrow. -/
theorem updateBalances_counterexample :
    walletFindByUserId emptySt "u1" = none
    ∧ updateBalances emptySt "u1" 5 0 none = .error "BALANCE_UPDATE_FAILED"
    ∧ ¬((5 : Int) < 0)
    ∧ ¬((0 : Int) < 0) := by
  exact ⟨rfl, rfl, by decide, by decide⟩

/-- C3 witness: wallet `(available 3, locked 0)` rejects a `Δavail = -5`
and accepts nothing else wrongly; a successful `+5` credit writes the
matching ledger entry. -/
theorem updateBalances_insufficient_spec_witness :
    (updateBalances { emptySt with
        wallets := [{ userId := "u1", availableBalance := 3, lockedBalance := 0 }] }
      "u1" (-5) 0 none = .error "BALANCE_UPDATE_FAILED"
      ↔ (((-5 : Int) < 0 ∧ (3 : Int) < -(-5 : Int)) ∨
          ((0 : Int) < 0 ∧ (0 : Int) < -(0 : Int)))) := by
  exact (updateBalances_insufficient_spec { emptySt with
      wallets := [{ userId := "u1", availableBalance := 3, lockedBalance := 0 }] }
    "u1" (-5) 0 none (by decide)).2.1
    { userId := "u1", availableBalance := 3, lockedBalance := 0 } rfl

/-! ### C2: wallet non-negativity invariant -/

/-- The two operations of the source that write the `wallets` collection
(`createIfMissing` upsert and the conditional `updateBalances`); every
wallet mutation in the repository goes through one of them. -/
inductive WalletStep : St → St → Prop
  | ensure (st : St) (uid : String) : WalletStep st (walletCreateIfMissing st uid)
  | apply (st : St) (uid : String) (da dl : Int) (meta : Option LedgerMeta)
      (st' : St) (h : updateBalances st uid da dl meta = .ok st') :
      WalletStep st st'

/-- Both balances of every wallet are non-negative. -/
def walletsNonneg (st : St) : Prop :=
  ∀ w ∈ st.wallets, 0 ≤ w.availableBalance ∧ 0 ≤ w.lockedBalance

theorem walletStep_preserves {st st' : St} (hnn : walletsNonneg st)
    (h : WalletStep st st') : walletsNonneg st' := by
  cases h with
  | ensure uid =>
      intro w hw
      unfold walletCreateIfMissing at hw
      rcases hfind : walletFindByUserId st uid with _ | w'
      · rw [hfind] at hw
        simp only [List.mem_append] at hw
        rcases hw with hw | hw
        · exact hnn w hw
        · simp only [List.mem_singleton] at hw
          subst hw
          exact ⟨le_refl 0, le_refl 0⟩
      · rw [hfind] at hw
        exact hnn w hw
  | apply uid da dl meta st2 h =>
      intro w hw
      unfold updateBalances at h
      rcases hu : listUpdateFirst (walletAdmits uid da dl) (applyDelta da dl)
          st.wallets with _ | ws
      · rw [hu] at h; exact Except.noConfusion h
      · rw [hu] at h
        cases h
        rcases listUpdateFirst_mem hu w hw with hmem | ⟨b, hb, hpb, rfl⟩
        · exact hnn w hmem
        · have hbn := hnn b hb
          rcases (walletAdmits_iff uid da dl b).mp hpb with ⟨_, h2, h3⟩
          unfold applyDelta
          constructor <;> simp only [] <;> omega

/-- C2: starting from a store with no wallets, every state reachable
through the wallet repository's mutations keeps `availableBalance ≥ 0 ∧
lockedBalance ≥ 0` for every wallet; and any update that would drive
either balance of an existing wallet negative is rejected (the thrown
error aborts the surrounding transaction, leaving both balances
unchanged). -/
theorem wallet_nonneg_invariant :
    (∀ st st' : St, st.wallets = [] →
        Relation.ReflTransGen WalletStep st st' → walletsNonneg st')
    ∧ (∀ (st : St) (uid : String) (da dl : Int) (meta : Option LedgerMeta)
        (w : Wallet), walletsNonneg st →
        (st.wallets.map (fun w => w.userId)).Nodup →
        walletFindByUserId st uid = some w →
        (w.availableBalance + da < 0 ∨ w.lockedBalance + dl < 0) →
        updateBalances st uid da dl meta = .error "BALANCE_UPDATE_FAILED") := by
  constructor
  · intro st st' hinit hreach
    induction hreach with
    | refl =>
        intro w hw
        rw [hinit] at hw
        exact absurd hw (List.not_mem_nil w)
    | tail _ hstep ih => exact walletStep_preserves ih hstep
  · intro st uid da dl meta w hnn hnd hw hneg
    have hwn := hnn w (List.mem_of_find?_eq_some hw)
    refine updateBalances_error_of_cond meta hnd hw ?_
    omega

/-- C2 witness: `ensure` then a `+5` credit reaches a store whose single
wallet is non-negative; and a `-7` debit on a `(5, 0)` wallet is rejected. -/
theorem wallet_nonneg_invariant_witness :
    walletsNonneg { emptySt with
      wallets := [{ userId := "u1", availableBalance := 5, lockedBalance := 0 }],
      ledger := [mkLedgerEntry "u1" 5 0 none] }
    ∧ updateBalances { emptySt with
        wallets := [{ userId := "u1", availableBalance := 5, lockedBalance := 0 }] }
      "u1" (-7) 0 none = .error "BALANCE_UPDATE_FAILED" := by
  constructor
  · refine (wallet_nonneg_invariant).1 emptySt _ rfl ?_
    refine Relation.ReflTransGen.tail (Relation.ReflTransGen.single
      (WalletStep.ensure emptySt "u1")) ?_
    exact WalletStep.apply _ "u1" 5 0 none _ rfl
  · exact (wallet_nonneg_invariant).2 { emptySt with
        wallets := [{ userId := "u1", availableBalance := 5, lockedBalance := 0 }] }
      "u1" (-7) 0 none
      { userId := "u1", availableBalance := 5, lockedBalance := 0 }
      (by intro w hw; simp only [List.mem_singleton] at hw; subst hw; exact ⟨by decide, by decide⟩)
      (by decide) rfl (by decide)

/-! ### Settle-loop lemmas (FinishRound's closure transaction) -/

/-- Total amount settled against user `u` by the winner list `ws`. -/
def settleSum (u : String) (ws : List Bid) : Int :=
  ((ws.filter (fun b => decide (b.userId = u))).map (fun b => b.amount)).sum

theorem settleSum_nil (u : String) : settleSum u [] = 0 := rfl

theorem settleSum_cons (u : String) (b : Bid) (rest : List Bid) :
    settleSum u (b :: rest)
      = (if b.userId = u then b.amount else 0) + settleSum u rest := by
  unfold settleSum
  rw [List.filter_cons]
  by_cases h : b.userId = u
  · simp [h]
  · simp [h]

theorem map_userId_settle (da dl : Int) (uid : String) (l : List Wallet) :
    ((l.map (fun w => if w.userId = uid then applyDelta da dl w else w)).map
        (fun w => w.userId))
      = l.map (fun w => w.userId) := by
  rw [List.map_map]
  apply List.map_congr_left
  intro w _
  by_cases h : w.userId = uid <;> simp [h, applyDelta]

/-- The settle loop, on success, debits each user's locked balance by the
total of that user's winning amounts, appends one `(0, -amount)` ledger
entry per winner in order, and touches nothing else. -/
theorem settleWinners_ok : ∀ (ws : List Bid) (st st' : St),
    (st.wallets.map (fun w => w.userId)).Nodup →
    settleWinners st ws = .ok st' →
    st'.wallets = st.wallets.map (fun w =>
        { w with lockedBalance := w.lockedBalance - settleSum w.userId ws })
    ∧ st'.ledger = st.ledger
        ++ ws.map (fun b => mkLedgerEntry b.userId 0 (-b.amount) none)
    ∧ st'.bids = st.bids ∧ st'.rounds = st.rounds ∧ st'.auctions = st.auctions
    ∧ st'.cache = st.cache ∧ st'.jobs = st.jobs ∧ st'.users = st.users
    ∧ st'.nextId = st.nextId
  | [], st, st', hnd, h => by
      cases h
      refine ⟨?_, by simp, rfl, rfl, rfl, rfl, rfl, rfl, rfl⟩
      have hcg : ∀ w ∈ st.wallets,
          ({ w with lockedBalance := w.lockedBalance - settleSum w.userId [] }
            : Wallet) = id w := by
        intro w _
        simp [settleSum_nil]
      rw [List.map_congr_left hcg, List.map_id]
  | b :: rest, st, st', hnd, h => by
      unfold settleWinners at h
      revert h
      rcases hub : updateBalances st b.userId 0 (-b.amount) none with e | stm
      · intro h; exact absurd h (by simp)
      · intro h
        dsimp only at h
        obtain ⟨hw, hl, hau, hro, hbi, hus, hca, hjo, hni⟩ :=
          updateBalances_ok_spec hnd hub
        have hnd' : (stm.wallets.map (fun w => w.userId)).Nodup := by
          rw [hw, map_userId_settle]; exact hnd
        obtain ⟨hw', hl', hbi', hro', hau', hca', hjo', hus', hni'⟩ :=
          settleWinners_ok rest stm st' hnd' h
        refine ⟨?_, ?_, hbi'.trans hbi, hro'.trans hro, hau'.trans hau,
          hca'.trans hca, hjo'.trans hjo, hus'.trans hus, hni'.trans hni⟩
        · rw [hw', hw, List.map_map]
          apply List.map_congr_left
          intro w _
          by_cases hbu : w.userId = b.userId
          · simp only [Function.comp, if_pos hbu, applyDelta]
            rw [settleSum_cons, if_pos hbu.symm]
            simp only [Wallet.mk.injEq]
            exact ⟨trivial, by omega, by omega⟩
          · simp only [Function.comp, if_neg hbu]
            rw [settleSum_cons, if_neg (fun hc => hbu hc.symm)]
            simp only [Wallet.mk.injEq]
            exact ⟨trivial, trivial, by omega⟩
        · rw [hl', hl]
          simp

theorem foldl_cacheRemoveBid_fields (aid : String) :
    ∀ (bs : List Bid) (st : St),
      ((bs.foldl (fun s b => cacheRemoveBid s aid b.id) st).bids = st.bids)
      ∧ ((bs.foldl (fun s b => cacheRemoveBid s aid b.id) st).wallets = st.wallets)
      ∧ ((bs.foldl (fun s b => cacheRemoveBid s aid b.id) st).ledger = st.ledger)
  | [], _ => ⟨rfl, rfl, rfl⟩
  | b :: bs, st => foldl_cacheRemoveBid_fields aid bs (cacheRemoveBid st aid b.id)

/-! ### C8: ledger reasons actually written by the use cases -/

/-- Funded bidders for the "simple round" scenario. -/
def walletsW : List Wallet :=
  [{ userId := "u1", availableBalance := 900, lockedBalance := 100 },
   { userId := "u2", availableBalance := 800, lockedBalance := 200 },
   { userId := "u3", availableBalance := 850, lockedBalance := 150 },
   { userId := "u4", availableBalance := 950, lockedBalance := 50 }]

/-- The "simple round" state: auction `a1` (2 items), active round `r1`,
four active bids 50/100/150/200 with the matching holds in place. -/
def stSimple : St :=
  { emptySt with
    auctions := [aucW], rounds := [rndW],
    bids := [mkBidW "b4" "u4" 50 1 BidStatus.active,
             mkBidW "b1" "u1" 100 2 BidStatus.active,
             mkBidW "b3" "u3" 150 3 BidStatus.active,
             mkBidW "b2" "u2" 200 4 BidStatus.active],
    wallets := walletsW }

/-- State for a first bid: active auction and round, a funded user, no
bids anywhere yet. -/
def stHold : St :=
  { emptySt with
    auctions := [aucW], rounds := [rndW],
    wallets := [{ userId := "u2", availableBalance := 500, lockedBalance := 0 }] }

/-- State for a withdrawal: an active bid of 100 with its hold in place. -/
def stWdr : St :=
  { emptySt with
    bids := [mkBidW "b1" "u1" 100 2 BidStatus.active],
    wallets := [{ userId := "u1", availableBalance := 0, lockedBalance := 100 }] }

/-- C8: evaluation of the code at the failing inputs. The bid-admission
hold, the winner settlements at round close, and the withdrawal refund all
call `updateBalances` without a meta argument, so each of their ledger
entries records the fallback reason `"adjustment"` — not `"hold"`,
`"settle"` or `"refund"`; only the deposit passes `reason: "credit"`. -/
theorem ledger_reasons_evaluation :
    ((placeBid cfgW "a1" "u2" 100 500 stHold).2.ledger.map (fun e => e.reason))
      = ["adjustment"]
    ∧ ((finishRound cfgW "r1" 20000 stSimple).map
        (fun s => s.ledger.map (fun e => e.reason))) = .ok ["adjustment", "adjustment"]
    ∧ ((withdrawFunds "b1" "u1" stWdr).map
        (fun s => s.ledger.map (fun e => e.reason))) = .ok ["adjustment"]
    ∧ ((creditWallet "u1" 100 none emptySt).map
        (fun s => s.ledger.map (fun e => e.reason))) = .ok ["credit"]
    ∧ "adjustment" ≠ "hold" ∧ "adjustment" ≠ "settle" ∧ "adjustment" ≠ "refund" := by
  exact ⟨rfl, rfl, rfl, rfl, by decide, by decide, by decide⟩

/-! ### C7: FinishRound guards -/

/-- C7: FinishRound never closes a round before its stored endTime: a
missing or non-active round is an unchanged-state no-op, and when
`now < endTime` it only replaces the scheduled closure job with one at
`endTime`, leaving bids, wallets, rounds, auctions and the ledger
untouched. -/
theorem finishRound_guards (cfg : Config) (rid : String) (now : Int) (st : St) :
    (roundFindById st rid = none → finishRound cfg rid now st = .ok st)
    ∧ (∀ round, roundFindById st rid = some round →
        round.status ≠ RoundStatus.active → finishRound cfg rid now st = .ok st)
    ∧ (∀ round, roundFindById st rid = some round →
        round.status = RoundStatus.active → now < round.endTime →
        finishRound cfg rid now st = .ok (jobReschedule st round.id round.endTime)
          ∧ (jobReschedule st round.id round.endTime).bids = st.bids
          ∧ (jobReschedule st round.id round.endTime).wallets = st.wallets
          ∧ (jobReschedule st round.id round.endTime).rounds = st.rounds
          ∧ (jobReschedule st round.id round.endTime).auctions = st.auctions
          ∧ (jobReschedule st round.id round.endTime).ledger = st.ledger) := by
  refine ⟨fun h => ?_, fun round h hs => ?_, fun round h hs hn => ?_⟩
  · unfold finishRound
    rw [h]
  · unfold finishRound
    rw [h]
    simp [hs]
  · unfold finishRound
    rw [h]
    simp [hs, hn, jobReschedule]

/-- C7 witness: a stale closure job for the active round `r1` (end 10000)
arriving at `now = 500` only reschedules. -/
theorem finishRound_guards_witness :
    finishRound cfgW "r1" 500
        { emptySt with auctions := [aucW], rounds := [rndW] }
      = .ok (jobReschedule { emptySt with auctions := [aucW], rounds := [rndW] }
          "r1" 10000)
    ∧ (jobReschedule { emptySt with auctions := [aucW], rounds := [rndW] }
        "r1" 10000).wallets
      = ({ emptySt with auctions := [aucW], rounds := [rndW] } : St).wallets := by
  have h := (finishRound_guards cfgW "r1" 500
    { emptySt with auctions := [aucW], rounds := [rndW] }).2.2 rndW (by decide)
    (by decide) (by decide)
  exact ⟨h.1, h.2.2.1⟩

/-! ### C9: StartRound idempotency -/

/-- C9: StartRound is idempotent: with an active round present it returns
that round and changes nothing but (when the round's end has been reached,
`endTime ≤ now`) the closure job, which it reschedules to `now`; with no
active round it creates round `currentRoundNumber + 1` spanning
`[now, now + roundDurationMs]` and schedules its closure at that end. -/
theorem startRound_idempotent (cfg : Config) (aid : String) (now : Int)
    (st : St) (auction : Auction)
    (ha : auctionFindById st aid = some auction)
    (hact : auction.status = AuctionStatus.active) :
    (∀ r, roundFindActiveByAuction st aid = some r →
        startRound cfg aid now st =
          .ok (r, if r.endTime ≤ now then jobReschedule st r.id now else st)
          ∧ (jobReschedule st r.id now).rounds = st.rounds
          ∧ (jobReschedule st r.id now).auctions = st.auctions
          ∧ (jobReschedule st r.id now).bids = st.bids
          ∧ (jobReschedule st r.id now).wallets = st.wallets)
    ∧ (roundFindActiveByAuction st aid = none →
        ∃ r st', startRound cfg aid now st = .ok (r, st')
          ∧ r.roundNumber = auction.currentRoundNumber + 1
          ∧ r.startTime = now
          ∧ r.endTime = now + cfg.roundDurationMs
          ∧ r.status = RoundStatus.active
          ∧ st'.rounds = st.rounds ++ [r]
          ∧ st'.jobs = st.jobs ++ [{ roundId := r.id, runAt := now + cfg.roundDurationMs }]) := by
  constructor
  · intro r hr
    unfold startRound
    rw [ha, hr]
    simp [hact, jobReschedule]
    split <;> simp
  · intro hr
    unfold startRound
    rw [ha, hr]
    dsimp only
    rw [if_neg (by simp [hact])]
    refine ⟨_, _, rfl, ?_, ?_, ?_, ?_, ?_, ?_⟩ <;>
      simp [roundCreate, auctionUpdate, jobSchedule]

/-! ### C5: the ranking rule -/

/-- The ranking key of a bid: `(amount, timestamp)`. -/
def bidKey (b : Bid) : Int × Int := (b.amount, b.timestamp)

theorem bidLe_of_key_eq {a b : Bid} (h : bidKey a = bidKey b) : bidLe a b := by
  rcases Prod.mk.injEq _ _ _ _ ▸ h with ⟨h1, h2⟩
  exact Or.inr ⟨h1, le_of_eq h2⟩

theorem key_eq_of_bidLe_both {a b : Bid} (h1 : bidLe a b) (h2 : bidLe b a) :
    bidKey a = bidKey b := by
  rcases h1 with h1 | ⟨h1, t1⟩ <;> rcases h2 with h2 | ⟨h2, t2⟩ <;>
    unfold bidKey
  · exact absurd (h1.trans h2) (lt_irrefl _)
  · exact absurd (h2 ▸ h1) (lt_irrefl _)
  · exact absurd (h1 ▸ h2) (lt_irrefl _)
  · rw [h1, le_antisymm t1 t2]

/-- Inserting a bid of key `k` in front of the strictly-earlier prefix
leaves the key-`k` subsequence with the new bid first. -/
theorem filter_orderedInsert_key {k : Int × Int} {a : Bid} (ha : bidKey a = k) :
    ∀ l : List Bid,
      (List.orderedInsert bidLe a l).filter (fun b => decide (bidKey b = k))
        = a :: l.filter (fun b => decide (bidKey b = k))
  | [] => by simp [List.orderedInsert, ha]
  | b :: l => by
      by_cases hle : bidLe a b
      · simp [List.orderedInsert, hle, List.filter_cons, ha]
      · have hbk : ¬(bidKey b = k) := fun hbk =>
          hle (bidLe_of_key_eq (ha.trans hbk.symm))
        simp [List.orderedInsert, hle, List.filter_cons, hbk,
          filter_orderedInsert_key ha l]

/-- Inserting a bid of a different key does not disturb the key-`k`
subsequence. -/
theorem filter_orderedInsert_ne {k : Int × Int} {a : Bid} (ha : ¬(bidKey a = k)) :
    ∀ l : List Bid,
      (List.orderedInsert bidLe a l).filter (fun b => decide (bidKey b = k))
        = l.filter (fun b => decide (bidKey b = k))
  | [] => by simp [List.orderedInsert, ha]
  | b :: l => by
      by_cases hle : bidLe a b
      · simp [List.orderedInsert, hle, List.filter_cons, ha]
      · simp [List.orderedInsert, hle, List.filter_cons,
          filter_orderedInsert_ne ha l]

/-- Stability of `rankBids`: bids sharing one ranking key keep their
input order. -/
theorem rankBids_cons (a : Bid) (l : List Bid) :
    rankBids (a :: l) = List.orderedInsert bidLe a (rankBids l) := rfl

theorem rankBids_stable (k : Int × Int) :
    ∀ l : List Bid, (rankBids l).filter (fun b => decide (bidKey b = k))
      = l.filter (fun b => decide (bidKey b = k))
  | [] => rfl
  | a :: l => by
      rw [rankBids_cons]
      by_cases ha : bidKey a = k
      · rw [filter_orderedInsert_key ha, rankBids_stable k l]
        simp [List.filter_cons, ha]
      · rw [filter_orderedInsert_ne ha, rankBids_stable k l]
        simp [List.filter_cons, ha]

/-- C5 (amended): `rankBids` is a total, deterministic, stable ordering:
its output is a permutation of the input sorted by amount descending with
ties broken by timestamp ascending; bids sharing both keys keep their
input order (stability); and any two permutations of the same multiset of
bids with pairwise-distinct `(amount, timestamp)` keys rank identically —
with duplicated keys the stable order depends on the input order, which is
what the counterexample exhibits. -/
theorem rankBids_spec (l l₂ : List Bid) (hperm : l.Perm l₂)
    (hkeys : l.Pairwise (fun a b => bidKey a ≠ bidKey b)) :
    (rankBids l).Perm l
    ∧ (rankBids l).Sorted bidLe
    ∧ (∀ k : Int × Int, (rankBids l).filter (fun b => decide (bidKey b = k))
        = l.filter (fun b => decide (bidKey b = k)))
    ∧ rankBids l = rankBids l₂ := by
  have hsym : ∀ {x y : Bid}, bidKey x ≠ bidKey y → bidKey y ≠ bidKey x :=
    fun h hc => h hc.symm
  have hp1 : (rankBids l).Perm l := List.perm_insertionSort bidLe l
  have hp2 : (rankBids l₂).Perm l₂ := List.perm_insertionSort bidLe l₂
  refine ⟨hp1, List.sorted_insertionSort bidLe l,
    fun k => rankBids_stable k l, ?_⟩
  have hk1 : (rankBids l).Pairwise (fun a b => bidKey a ≠ bidKey b) :=
    ((hp1).pairwise_iff hsym).mpr hkeys
  have hk2 : (rankBids l₂).Pairwise (fun a b => bidKey a ≠ bidKey b) :=
    ((hp2).pairwise_iff hsym).mpr ((hperm.pairwise_iff hsym).mp hkeys)
  have hs1 : (rankBids l).Pairwise (fun a b => bidLe a b ∧ bidKey a ≠ bidKey b) :=
    (List.sorted_insertionSort bidLe l).and hk1
  have hs2 : (rankBids l₂).Pairwise (fun a b => bidLe a b ∧ bidKey a ≠ bidKey b) :=
    (List.sorted_insertionSort bidLe l₂).and hk2
  haveI : IsAntisymm Bid (fun a b => bidLe a b ∧ bidKey a ≠ bidKey b) :=
    ⟨fun a b h1 h2 => absurd (key_eq_of_bidLe_both h1.1 h2.1) h1.2⟩
  exact List.eq_of_perm_of_sorted
    (hp1.trans (hperm.trans hp2.symm)) hs1 hs2

/-- Two distinct bids with the same amount and the same timestamp. -/
def bidX : Bid := mkBidW "x" "u1" 100 1000 BidStatus.active

/-- See `bidX`. -/
def bidY : Bid := mkBidW "y" "u2" 100 1000 BidStatus.active

/-- C5 counterexample: re-ranking the same multiset does not always return
the same order — two bids with identical `(amount, timestamp)` keys come
out in input order (the sort is stable), so the two orderings of the
two-element multiset rank differently. -/
theorem rankBids_counterexample :
    ([bidX, bidY] : List Bid).Perm [bidY, bidX]
    ∧ rankBids [bidX, bidY] = [bidX, bidY]
    ∧ rankBids [bidY, bidX] = [bidY, bidX]
    ∧ rankBids [bidX, bidY] ≠ rankBids [bidY, bidX] := by
  refine ⟨List.Perm.swap bidY bidX [], by decide, by decide, by decide⟩

/-- C5 witness: distinct-key bids 10/20/20-later ranked from two permuted
inputs. -/
theorem rankBids_spec_witness :
    (rankBids [mkBidW "c" "u3" 20 5 BidStatus.active,
        mkBidW "a" "u1" 10 1 BidStatus.active,
        mkBidW "b" "u2" 20 3 BidStatus.active]).Perm
      [mkBidW "c" "u3" 20 5 BidStatus.active,
        mkBidW "a" "u1" 10 1 BidStatus.active,
        mkBidW "b" "u2" 20 3 BidStatus.active]
    ∧ rankBids [mkBidW "c" "u3" 20 5 BidStatus.active,
        mkBidW "a" "u1" 10 1 BidStatus.active,
        mkBidW "b" "u2" 20 3 BidStatus.active]
      = rankBids [mkBidW "a" "u1" 10 1 BidStatus.active,
          mkBidW "b" "u2" 20 3 BidStatus.active,
          mkBidW "c" "u3" 20 5 BidStatus.active] := by
  have h := rankBids_spec
    [mkBidW "c" "u3" 20 5 BidStatus.active,
      mkBidW "a" "u1" 10 1 BidStatus.active,
      mkBidW "b" "u2" 20 3 BidStatus.active]
    [mkBidW "a" "u1" 10 1 BidStatus.active,
      mkBidW "b" "u2" 20 3 BidStatus.active,
      mkBidW "c" "u3" 20 5 BidStatus.active]
    (by decide) (by decide)
  exact ⟨h.1, h.2.2.2⟩

/-! ### C4 and C10: PlaceBid check order and the minimum-step rule -/

/-- The liveness/transaction stage of PlaceBid can fail only with
liveness, funds or repository errors — never with the two validation
codes of the earlier stages. -/
theorem placeBidChecksAndTx_fst_cases (cfg : Config) (aid uid : String)
    (amount now : Int) (st : St) :
    (placeBidChecksAndTx cfg aid uid amount now st).1 = .error .AUCTION_NOT_ACTIVE
    ∨ (placeBidChecksAndTx cfg aid uid amount now st).1 = .error .ROUND_NOT_ACTIVE
    ∨ (placeBidChecksAndTx cfg aid uid amount now st).1 = .error .ROUND_ENDED
    ∨ (placeBidChecksAndTx cfg aid uid amount now st).1 = .error .INSUFFICIENT_FUNDS
    ∨ (placeBidChecksAndTx cfg aid uid amount now st).1 = .error .BALANCE_UPDATE_FAILED
    ∨ ∃ b, (placeBidChecksAndTx cfg aid uid amount now st).1 = .ok b := by
  unfold placeBidChecksAndTx
  rcases auctionFindById st aid with _ | auction
  · exact Or.inl rfl
  · dsimp only
    by_cases h1 : auction.status ≠ AuctionStatus.active
    · rw [if_pos h1]; exact Or.inl rfl
    · rw [if_neg h1]
      rcases roundFindActiveByAuction st aid with _ | round
      · exact Or.inr (Or.inl rfl)
      · dsimp only
        by_cases h2 : round.endTime < now
        · rw [if_pos h2]; exact Or.inr (Or.inr (Or.inl rfl))
        · rw [if_neg h2]
          rcases walletFindByUserId (walletCreateIfMissing
              (userCreateIfMissing st
                { id := uid, username := uid, walletAddress := "n/a" }) uid) uid
            with _ | w
          · exact Or.inr (Or.inr (Or.inr (Or.inl rfl)))
          · dsimp only
            by_cases h3 : w.availableBalance < amount
            · rw [if_pos h3]; exact Or.inr (Or.inr (Or.inr (Or.inl rfl)))
            · rw [if_neg h3]
              rcases updateBalances (walletCreateIfMissing
                  (userCreateIfMissing st
                    { id := uid, username := uid, walletAddress := "n/a" }) uid)
                  uid (-amount) amount none with e | st3
              · exact Or.inr (Or.inr (Or.inr (Or.inr (Or.inl rfl))))
              · exact Or.inr (Or.inr (Or.inr (Or.inr (Or.inr ⟨_, rfl⟩))))

theorem placeBidChecksAndTx_fst (cfg : Config) (aid uid : String)
    (amount now : Int) (st : St) :
    (placeBidChecksAndTx cfg aid uid amount now st).1 ≠ .error .BID_TOO_LOW
    ∧ (placeBidChecksAndTx cfg aid uid amount now st).1 ≠ .error .INVALID_AMOUNT := by
  rcases placeBidChecksAndTx_fst_cases cfg aid uid amount now st with
    h | h | h | h | h | ⟨b, h⟩ <;> rw [h] <;> exact ⟨by simp, by simp⟩

/-- Cache-priming state for a lone leaderboard entry of amount 100 on an
auction that does not even exist in the store. -/
def stTop : St :=
  { emptySt with
    cache := [{ auctionId := "a1", bid := mkBidW "b1" "u1" 100 2 BidStatus.active }] }

/-- C4 (amended): for requests with positive amount, PlaceBid rejects with
`BID_TOO_LOW` if and only if a top bid exists — taken from the leaderboard
cache, primed from the authoritative store when the cache is empty but
eligible bids exist — and the requested amount is strictly below
`minRequiredAmount top.amount stepPercent` = `ceil(topAmount × (1 +
stepPercent/100))`; a bid of exactly the required minimum passes the
check. (A non-positive amount is rejected as `INVALID_AMOUNT` first, which
is what the counterexample exhibits.) -/
theorem placeBid_min_step_iff (cfg : Config) (aid uid : String)
    (amount now : Int) (st : St) (hpos : 0 < amount) :
    ((placeBid cfg aid uid amount now st).1 = .error .BID_TOO_LOW
      ↔ ∃ top, primedTop cfg st aid = some top
          ∧ amount < minRequiredAmount top.amount cfg.minStepPercent)
    ∧ (∀ top, primedTop cfg st aid = some top →
        amount = minRequiredAmount top.amount cfg.minStepPercent →
        (placeBid cfg aid uid amount now st).1 ≠ .error .BID_TOO_LOW) := by
  have hiff : (placeBid cfg aid uid amount now st).1 = .error .BID_TOO_LOW
      ↔ ∃ top, primedTop cfg st aid = some top
          ∧ amount < minRequiredAmount top.amount cfg.minStepPercent := by
    unfold placeBid primedTop
    rw [if_neg (not_le.mpr hpos)]
    rcases hpl : primeLeaderboard cfg st aid with ⟨topBids, st'⟩
    dsimp only
    rcases topBids with _ | ⟨top, rest⟩
    · simp [(placeBidChecksAndTx_fst cfg aid uid amount now st').1]
    · by_cases hlt : amount < minRequiredAmount top.amount cfg.minStepPercent
      · simp [hlt]
      · simp [hlt, (placeBidChecksAndTx_fst cfg aid uid amount now st').1]
  refine ⟨hiff, fun top htop heq hc => ?_⟩
  rcases hiff.mp hc with ⟨top', htop', hlt⟩
  rw [htop] at htop'
  cases Option.some.inj htop'
  rw [heq] at hlt
  exact lt_irrefl _ hlt

/-- C4 counterexample: with a top bid of 100 on the leaderboard (required
minimum 105), a request for amount 0 is below the required minimum yet is
rejected with `INVALID_AMOUNT`, not `BID_TOO_LOW` — the claimed
biconditional fails for non-positive amounts. -/
theorem placeBid_min_step_counterexample :
    primedTop cfgW stTop "a1" = some (mkBidW "b1" "u1" 100 2 BidStatus.active)
    ∧ (0 : Int) < minRequiredAmount 100 5
    ∧ (placeBid cfgW "a1" "u9" 0 500 stTop).1 = .error .INVALID_AMOUNT
    ∧ ¬((placeBid cfgW "a1" "u9" 0 500 stTop).1 = .error .BID_TOO_LOW) := by
  refine ⟨rfl, by rw [minRequiredAmount_eq]; decide, rfl, fun h => ?_⟩
  rw [show (placeBid cfgW "a1" "u9" 0 500 stTop).1
      = Except.error ErrCode.INVALID_AMOUNT from rfl] at h
  simp at h

/-- C4 witness: over the `stTop` leaderboard (top 100, required minimum
105), amount 104 is rejected `BID_TOO_LOW` and amount 105 is not. -/
theorem placeBid_min_step_iff_witness :
    (placeBid cfgW "a1" "u9" 104 500 stTop).1 = .error .BID_TOO_LOW
    ∧ ¬((placeBid cfgW "a1" "u9" 105 500 stTop).1 = .error .BID_TOO_LOW) := by
  constructor
  · exact (placeBid_min_step_iff cfgW "a1" "u9" 104 500 stTop (by decide)).1.mpr
      ⟨mkBidW "b1" "u1" 100 2 BidStatus.active, rfl,
        by rw [minRequiredAmount_eq]; decide⟩
  · exact (placeBid_min_step_iff cfgW "a1" "u9" 105 500 stTop (by decide)).2
      (mkBidW "b1" "u1" 100 2 BidStatus.active) rfl
      (by rw [minRequiredAmount_eq]; decide)

/-- C10: PlaceBid evaluates the positive-amount check and then the
minimum-step check before any auction or round liveness check: a
non-positive amount is always `INVALID_AMOUNT`; a positive amount below
the required minimum over an existing (primed) top is always
`BID_TOO_LOW`, whatever the auction and round state; and the three
liveness failures are reachable only for positive amounts that pass the
minimum-step check. -/
theorem placeBid_check_order (cfg : Config) (aid uid : String)
    (amount now : Int) (st : St) :
    (amount ≤ 0 → (placeBid cfg aid uid amount now st).1 = .error .INVALID_AMOUNT)
    ∧ (0 < amount → ∀ top, primedTop cfg st aid = some top →
        amount < minRequiredAmount top.amount cfg.minStepPercent →
        (placeBid cfg aid uid amount now st).1 = .error .BID_TOO_LOW)
    ∧ (((placeBid cfg aid uid amount now st).1 = .error .AUCTION_NOT_ACTIVE
        ∨ (placeBid cfg aid uid amount now st).1 = .error .ROUND_NOT_ACTIVE
        ∨ (placeBid cfg aid uid amount now st).1 = .error .ROUND_ENDED) →
        0 < amount ∧ ∀ top, primedTop cfg st aid = some top →
          minRequiredAmount top.amount cfg.minStepPercent ≤ amount) := by
  refine ⟨fun hle => ?_, fun hpos top htop hlt => ?_, fun herr => ?_⟩
  · unfold placeBid
    rw [if_pos hle]
  · unfold placeBid
    rw [if_neg (not_le.mpr hpos)]
    unfold primedTop at htop
    rcases hpl : primeLeaderboard cfg st aid with ⟨topBids, st'⟩
    rw [hpl] at htop
    dsimp only
    rcases topBids with _ | ⟨top', rest⟩
    · exact absurd htop (by simp)
    · rw [List.head?_cons] at htop
      cases Option.some.inj htop
      dsimp only
      rw [if_pos hlt]
  · by_cases hpos : 0 < amount
    · refine ⟨hpos, fun top htop => ?_⟩
      by_contra hc
      push_neg at hc
      have hb : (placeBid cfg aid uid amount now st).1 = .error .BID_TOO_LOW := by
        unfold placeBid
        rw [if_neg (not_le.mpr hpos)]
        unfold primedTop at htop
        rcases hpl : primeLeaderboard cfg st aid with ⟨topBids, st'⟩
        rw [hpl] at htop
        dsimp only
        rcases topBids with _ | ⟨top', rest⟩
        · exact absurd htop (by simp)
        · rw [List.head?_cons] at htop
          cases Option.some.inj htop
          dsimp only
          rw [if_pos hc]
      rcases herr with herr | herr | herr <;> rw [herr] at hb <;> simp at hb
    · have hi : (placeBid cfg aid uid amount now st).1 = .error .INVALID_AMOUNT := by
        unfold placeBid
        rw [if_pos (not_lt.mp hpos)]
      rcases herr with herr | herr | herr <;> rw [herr] at hi <;> simp at hi

/-- C10 witness: against `stTop` — whose store holds no auction at all —
amount −3 is `INVALID_AMOUNT` and amount 103 (below the required 105) is
`BID_TOO_LOW`, before any liveness check can fail. -/
theorem placeBid_check_order_witness :
    (placeBid cfgW "a1" "u9" (-3) 500 stTop).1 = .error .INVALID_AMOUNT
    ∧ (placeBid cfgW "a1" "u9" 103 500 stTop).1 = .error .BID_TOO_LOW := by
  constructor
  · exact (placeBid_check_order cfgW "a1" "u9" (-3) 500 stTop).1 (by decide)
  · exact (placeBid_check_order cfgW "a1" "u9" 103 500 stTop).2.1 (by decide)
      (mkBidW "b1" "u1" 100 2 BidStatus.active) rfl
      (by rw [minRequiredAmount_eq]; decide)

/-! ### C6: round endTime monotonicity under PlaceBid; the admin stop retreat -/

theorem roundFindById_id {st : St} {rid : String} {r : Round}
    (h : roundFindById st rid = some r) : r.id = rid := by
  simpa using List.find?_some h

theorem roundFindById_mem {st : St} {rid : String} {r : Round}
    (h : roundFindById st rid = some r) : r ∈ st.rounds :=
  List.mem_of_find?_eq_some h

theorem roundFindById_congr {st1 st2 : St} (h : st1.rounds = st2.rounds)
    (rid : String) : roundFindById st1 rid = roundFindById st2 rid := by
  unfold roundFindById
  rw [h]

/-- Over id-unique rounds, looking a member round up by its id finds it. -/
theorem roundFindById_of_mem {st : St} {r : Round}
    (hnd : (st.rounds.map (fun r => r.id)).Nodup) (hr : r ∈ st.rounds) :
    roundFindById st r.id = some r := by
  rcases hfind : roundFindById st r.id with _ | r'
  · have := List.find?_eq_none.mp hfind r hr
    simp at this
  · have h1 : r'.id = r.id := roundFindById_id hfind
    have h2 : r' ∈ st.rounds := roundFindById_mem hfind
    rw [List.inj_on_of_nodup_map hnd h2 hr h1]

/-- The active-round lookup returns a member that is active for the
auction. -/
theorem roundFindActive_mem {st : St} {aid : String} {r : Round}
    (h : roundFindActiveByAuction st aid = some r) :
    r ∈ st.rounds ∧ r.auctionId = aid ∧ r.status = RoundStatus.active := by
  unfold roundFindActiveByAuction at h
  have key : ∀ (l : List Round) (acc : Option Round),
      l.foldl (fun acc r =>
        match acc with
        | none => some r
        | some r' => if r'.roundNumber < r.roundNumber then some r else acc) acc
        = some r → r ∈ l ∨ acc = some r := by
    intro l
    induction l with
    | nil => intro acc h; exact Or.inr h
    | cons x xs ih =>
        intro acc h
        rcases ih _ h with hmem | hacc
        · exact Or.inl (List.mem_cons_of_mem x hmem)
        · rcases acc with _ | a
          · exact Or.inl (Option.some.inj hacc ▸ List.mem_cons_self x xs)
          · dsimp only at hacc
            by_cases hlt : a.roundNumber < x.roundNumber
            · rw [if_pos hlt] at hacc
              exact Or.inl (Option.some.inj hacc ▸ List.mem_cons_self x xs)
            · rw [if_neg hlt] at hacc
              exact Or.inr hacc
  rcases key _ none h with hmem | hacc
  · have := List.mem_filter.mp hmem
    refine ⟨this.1, ?_, ?_⟩ <;> [exact (of_decide_eq_true this.2).1;
      exact (of_decide_eq_true this.2).2]
  · exact Option.noConfusion hacc

theorem userCreateIfMissing_rounds (st : St) (u : User) :
    (userCreateIfMissing st u).rounds = st.rounds := by
  unfold userCreateIfMissing
  split <;> rfl

theorem walletCreateIfMissing_rounds (st : St) (uid : String) :
    (walletCreateIfMissing st uid).rounds = st.rounds := by
  unfold walletCreateIfMissing
  split <;> rfl

theorem updateBalances_ok_rounds {st st' : St} {uid : String} {da dl : Int}
    {meta : Option LedgerMeta} (h : updateBalances st uid da dl meta = .ok st') :
    st'.rounds = st.rounds := by
  unfold updateBalances at h
  rcases hu : listUpdateFirst (walletAdmits uid da dl) (applyDelta da dl)
      st.wallets with _ | ws
  · rw [hu] at h; exact Except.noConfusion h
  · rw [hu] at h
    cases h
    rfl

theorem foldl_cacheAddBid_rounds (aid : String) :
    ∀ (bs : List Bid) (st : St),
      (bs.foldl (fun s b => cacheAddBid s aid b) st).rounds = st.rounds
  | [], _ => rfl
  | b :: bs, st => foldl_cacheAddBid_rounds aid bs (cacheAddBid st aid b)

theorem primeLeaderboard_rounds (cfg : Config) (st : St) (aid : String) :
    (primeLeaderboard cfg st aid).2.rounds = st.rounds := by
  unfold primeLeaderboard
  dsimp only
  split
  · split
    · rfl
    · exact foldl_cacheAddBid_rounds aid _ st
  · rfl

/-- What the anti-sniping step does to the rounds collection. -/
theorem antiSnipingStep_rounds (cfg : Config) (rid : String) (now : Int)
    (st : St) :
    (antiSnipingStep cfg rid now st).rounds = st.rounds
    ∨ ∃ fresh, roundFindById st rid = some fresh
        ∧ fresh.status = RoundStatus.active
        ∧ shouldExtendRound fresh.endTime now cfg.thresholdMs = true
        ∧ (antiSnipingStep cfg rid now st).rounds
            = st.rounds.map (fun r => if r.id = fresh.id then
                { r with endTime := extendRound fresh.endTime cfg.extensionMs }
                else r) := by
  unfold antiSnipingStep
  rcases hfind : roundFindById st rid with _ | fresh
  · exact Or.inl rfl
  · dsimp only
    by_cases h1 : fresh.status ≠ RoundStatus.active
    · rw [if_pos h1]; exact Or.inl rfl
    · rw [if_neg h1]
      push_neg at h1
      by_cases h2 : shouldExtendRound fresh.endTime now cfg.thresholdMs = true
      · rw [if_pos h2]
        exact Or.inr ⟨fresh, rfl, h1, h2, rfl⟩
      · rw [if_neg h2]
        exact Or.inl rfl

/-- The anti-sniping step under the clean hypotheses: the re-read round is
the given active round, and the extension happens exactly on the
threshold condition. -/
theorem antiSnipingStep_exact (cfg : Config) (now : Int) (st : St)
    {fresh : Round} (hfind : roundFindById st fresh.id = some fresh)
    (hact : fresh.status = RoundStatus.active) :
    (antiSnipingStep cfg fresh.id now st).rounds
      = if shouldExtendRound fresh.endTime now cfg.thresholdMs then
          st.rounds.map (fun r => if r.id = fresh.id then
            { r with endTime := extendRound fresh.endTime cfg.extensionMs }
            else r)
        else st.rounds := by
  unfold antiSnipingStep
  rw [hfind]
  dsimp only
  rw [if_neg (by simp [hact])]
  by_cases h2 : shouldExtendRound fresh.endTime now cfg.thresholdMs = true
  · rw [if_pos h2, if_pos h2]
    rfl
  · rw [if_neg h2, if_neg h2]

theorem roundFindActive_congr {st1 st2 : St} (h : st1.rounds = st2.rounds)
    (aid : String) :
    roundFindActiveByAuction st1 aid = roundFindActiveByAuction st2 aid := by
  unfold roundFindActiveByAuction
  rw [h]

/-- What the whole liveness/transaction stage does to the rounds
collection: nothing, or exactly the anti-sniping extension of a re-read
active round within the threshold. -/
theorem placeBidChecksAndTx_rounds (cfg : Config) (aid uid : String)
    (amount now : Int) (st : St) :
    (placeBidChecksAndTx cfg aid uid amount now st).2.rounds = st.rounds
    ∨ ∃ fresh, roundFindById st fresh.id = some fresh
        ∧ fresh.status = RoundStatus.active
        ∧ shouldExtendRound fresh.endTime now cfg.thresholdMs = true
        ∧ (placeBidChecksAndTx cfg aid uid amount now st).2.rounds
            = st.rounds.map (fun r => if r.id = fresh.id then
                { r with endTime := extendRound fresh.endTime cfg.extensionMs }
                else r) := by
  unfold placeBidChecksAndTx
  rcases auctionFindById st aid with _ | auction
  · exact Or.inl rfl
  · dsimp only
    by_cases h1 : auction.status ≠ AuctionStatus.active
    · rw [if_pos h1]; exact Or.inl rfl
    · rw [if_neg h1]
      rcases roundFindActiveByAuction st aid with _ | round
      · exact Or.inl rfl
      · dsimp only
        by_cases h2 : round.endTime < now
        · rw [if_pos h2]; exact Or.inl rfl
        · rw [if_neg h2]
          rcases walletFindByUserId (walletCreateIfMissing
              (userCreateIfMissing st
                { id := uid, username := uid, walletAddress := "n/a" }) uid) uid
            with _ | w
          · exact Or.inl rfl
          · dsimp only
            by_cases h3 : w.availableBalance < amount
            · rw [if_pos h3]; exact Or.inl rfl
            · rw [if_neg h3]
              rcases hub : updateBalances (walletCreateIfMissing
                  (userCreateIfMissing st
                    { id := uid, username := uid, walletAddress := "n/a" }) uid)
                  uid (-amount) amount none with e | st3
              · exact Or.inl rfl
              · dsimp only
                have h5 : (cacheAddBid
                    (bidCreate st3 aid uid round.id amount now BidStatus.active).2
                    aid
                    (bidCreate st3 aid uid round.id amount now BidStatus.active).1).rounds
                    = st.rounds := by
                  rw [show (cacheAddBid
                      (bidCreate st3 aid uid round.id amount now BidStatus.active).2
                      aid
                      (bidCreate st3 aid uid round.id amount now BidStatus.active).1).rounds
                      = st3.rounds from rfl]
                  rw [updateBalances_ok_rounds hub, walletCreateIfMissing_rounds,
                    userCreateIfMissing_rounds]
                rcases antiSnipingStep_rounds cfg round.id now
                    (cacheAddBid
                      (bidCreate st3 aid uid round.id amount now BidStatus.active).2
                      aid
                      (bidCreate st3 aid uid round.id amount now BidStatus.active).1)
                  with h | ⟨fresh, hf, hact, hs, h⟩
                · exact Or.inl (h.trans h5)
                · refine Or.inr ⟨fresh, ?_, hact, hs, ?_⟩
                  · rw [← roundFindById_congr h5 fresh.id]
                    exact (roundFindById_id hf) ▸ hf
                  · rw [h, h5]

/-- The liveness/transaction stage on success: the rounds collection is
exactly the anti-sniping update of the admitted round. -/
theorem placeBidChecksAndTx_ok_rounds (cfg : Config) (aid uid : String)
    (amount now : Int) (st : St) {round : Round} {b : Bid}
    (hr : roundFindActiveByAuction st aid = some round)
    (hnd : (st.rounds.map (fun r => r.id)).Nodup)
    (hok : (placeBidChecksAndTx cfg aid uid amount now st).1 = .ok b) :
    (placeBidChecksAndTx cfg aid uid amount now st).2.rounds
      = if shouldExtendRound round.endTime now cfg.thresholdMs then
          st.rounds.map (fun r => if r.id = round.id then
            { r with endTime := extendRound round.endTime cfg.extensionMs }
            else r)
        else st.rounds := by
  revert hok
  unfold placeBidChecksAndTx
  rcases auctionFindById st aid with _ | auction
  · intro hok; simp at hok
  · dsimp only
    by_cases h1 : auction.status ≠ AuctionStatus.active
    · rw [if_pos h1]; intro hok; simp at hok
    · rw [if_neg h1]
      rw [hr]
      dsimp only
      by_cases h2 : round.endTime < now
      · rw [if_pos h2]; intro hok; simp at hok
      · rw [if_neg h2]
        rcases walletFindByUserId (walletCreateIfMissing
            (userCreateIfMissing st
              { id := uid, username := uid, walletAddress := "n/a" }) uid) uid
          with _ | w
        · intro hok; simp at hok
        · dsimp only
          by_cases h3 : w.availableBalance < amount
          · rw [if_pos h3]; intro hok; simp at hok
          · rw [if_neg h3]
            rcases hub : updateBalances (walletCreateIfMissing
                (userCreateIfMissing st
                  { id := uid, username := uid, walletAddress := "n/a" }) uid)
                uid (-amount) amount none with e | st3
            · intro hok; simp at hok
            · intro hok
              dsimp only
              have h5 : (cacheAddBid
                  (bidCreate st3 aid uid round.id amount now BidStatus.active).2
                  aid
                  (bidCreate st3 aid uid round.id amount now BidStatus.active).1).rounds
                  = st.rounds := by
                rw [show (cacheAddBid
                    (bidCreate st3 aid uid round.id amount now BidStatus.active).2
                    aid
                    (bidCreate st3 aid uid round.id amount now BidStatus.active).1).rounds
                    = st3.rounds from rfl]
                rw [updateBalances_ok_rounds hub, walletCreateIfMissing_rounds,
                  userCreateIfMissing_rounds]
              have hmem := (roundFindActive_mem hr).1
              have hact := (roundFindActive_mem hr).2.2
              have hf : roundFindById (cacheAddBid
                  (bidCreate st3 aid uid round.id amount now BidStatus.active).2
                  aid
                  (bidCreate st3 aid uid round.id amount now BidStatus.active).1)
                  round.id = some round := by
                rw [roundFindById_congr h5 round.id]
                exact roundFindById_of_mem hnd hmem
              have hex := @antiSnipingStep_exact cfg now
                (cacheAddBid
                  (bidCreate st3 aid uid round.id amount now BidStatus.active).2
                  aid
                  (bidCreate st3 aid uid round.id amount now BidStatus.active).1)
                round hf hact
              rw [h5] at hex
              exact hex

/-- What PlaceBid as a whole does to the rounds collection. -/
theorem placeBid_rounds_cases (cfg : Config) (aid uid : String)
    (amount now : Int) (st : St) :
    (placeBid cfg aid uid amount now st).2.rounds = st.rounds
    ∨ ∃ fresh, roundFindById st fresh.id = some fresh
        ∧ fresh.status = RoundStatus.active
        ∧ shouldExtendRound fresh.endTime now cfg.thresholdMs = true
        ∧ (placeBid cfg aid uid amount now st).2.rounds
            = st.rounds.map (fun r => if r.id = fresh.id then
                { r with endTime := extendRound fresh.endTime cfg.extensionMs }
                else r) := by
  unfold placeBid
  by_cases ha : amount ≤ 0
  · rw [if_pos ha]; exact Or.inl rfl
  · rw [if_neg ha]
    rcases hpl : primeLeaderboard cfg st aid with ⟨topBids, st'⟩
    have hpr : st'.rounds = st.rounds := by
      have := primeLeaderboard_rounds cfg st aid
      rw [hpl] at this
      exact this
    dsimp only
    rcases topBids with _ | ⟨top, rest⟩
    · rcases placeBidChecksAndTx_rounds cfg aid uid amount now st' with
        h | ⟨fresh, hf, hact, hs, h⟩
      · exact Or.inl (h.trans hpr)
      · exact Or.inr ⟨fresh, (roundFindById_congr hpr fresh.id) ▸ hf, hact, hs,
          by rw [h, hpr]⟩
    · dsimp only
      by_cases hlt : amount < minRequiredAmount top.amount cfg.minStepPercent
      · rw [if_pos hlt]; exact Or.inl hpr
      · rw [if_neg hlt]
        rcases placeBidChecksAndTx_rounds cfg aid uid amount now st' with
          h | ⟨fresh, hf, hact, hs, h⟩
        · exact Or.inl (h.trans hpr)
        · exact Or.inr ⟨fresh, (roundFindById_congr hpr fresh.id) ▸ hf, hact, hs,
            by rw [h, hpr]⟩

/-- PlaceBid on success: the rounds collection is exactly the anti-sniping
update of the admitted round. -/
theorem placeBid_ok_rounds (cfg : Config) (aid uid : String)
    (amount now : Int) (st : St) {round : Round} {b : Bid}
    (hr : roundFindActiveByAuction st aid = some round)
    (hnd : (st.rounds.map (fun r => r.id)).Nodup)
    (hok : (placeBid cfg aid uid amount now st).1 = .ok b) :
    (placeBid cfg aid uid amount now st).2.rounds
      = if shouldExtendRound round.endTime now cfg.thresholdMs then
          st.rounds.map (fun r => if r.id = round.id then
            { r with endTime := extendRound round.endTime cfg.extensionMs }
            else r)
        else st.rounds := by
  revert hok
  unfold placeBid
  by_cases ha : amount ≤ 0
  · rw [if_pos ha]; intro hok; simp at hok
  · rw [if_neg ha]
    rcases hpl : primeLeaderboard cfg st aid with ⟨topBids, st'⟩
    have hpr : st'.rounds = st.rounds := by
      have := primeLeaderboard_rounds cfg st aid
      rw [hpl] at this
      exact this
    have hr' : roundFindActiveByAuction st' aid = some round := by
      rw [roundFindActive_congr hpr aid]
      exact hr
    have hnd' : (st'.rounds.map (fun r => r.id)).Nodup := by
      rw [hpr]; exact hnd
    dsimp only
    rcases topBids with _ | ⟨top, rest⟩
    · intro hok
      have := placeBidChecksAndTx_ok_rounds cfg aid uid amount now st' hr' hnd' hok
      rw [hpr] at this
      exact this
    · dsimp only
      by_cases hlt : amount < minRequiredAmount top.amount cfg.minStepPercent
      · rw [if_pos hlt]; intro hok; simp at hok
      · rw [if_neg hlt]; intro hok
        have := placeBidChecksAndTx_ok_rounds cfg aid uid amount now st' hr' hnd' hok
        rw [hpr] at this
        exact this

/-- C6 (amended): while a round is active, PlaceBid only ever advances its
`endTime`: every round's `endTime` is pointwise non-decreasing across the
call, and on an admitted bid the rounds collection is replaced by the
anti-sniping update exactly when the re-read round is still active and
`endTime − now ≤ thresholdMs` — but the claim's "no operation ever sets an
active round's endTime to an earlier instant" fails for the admin stop
route, which sets the active round's `endTime` back to `now` before
invoking closure (see the counterexample). -/
theorem placeBid_endTime_monotone (cfg : Config) (aid uid : String)
    (amount now : Int) (st : St) (hext : 0 ≤ cfg.extensionMs)
    (hnd : (st.rounds.map (fun r => r.id)).Nodup) :
    List.Forall₂ (fun r r' => r.id = r'.id ∧ r.endTime ≤ r'.endTime)
      st.rounds (placeBid cfg aid uid amount now st).2.rounds
    ∧ (∀ round b, roundFindActiveByAuction st aid = some round →
        (placeBid cfg aid uid amount now st).1 = .ok b →
        (placeBid cfg aid uid amount now st).2.rounds
          = if shouldExtendRound round.endTime now cfg.thresholdMs then
              st.rounds.map (fun r => if r.id = round.id then
                { r with endTime := extendRound round.endTime cfg.extensionMs }
                else r)
            else st.rounds) := by
  constructor
  · rcases placeBid_rounds_cases cfg aid uid amount now st with
      h | ⟨fresh, hf, hact, hs, h⟩
    · rw [h]
      exact List.forall₂_same.mpr (fun r _ => ⟨rfl, le_refl _⟩)
    · rw [h]
      rw [List.forall₂_map_right_iff]
      refine List.forall₂_same.mpr (fun r hrmem => ?_)
      by_cases hid : r.id = fresh.id
      · have : r = fresh :=
          List.inj_on_of_nodup_map hnd hrmem (roundFindById_mem hf) hid
        subst this
        rw [if_pos hid]
        refine ⟨rfl, ?_⟩
        dsimp only
        unfold extendRound
        omega
      · rw [if_neg hid]
        exact ⟨rfl, le_refl _⟩
  · intro round b hr hok
    exact placeBid_ok_rounds cfg aid uid amount now st hr hnd hok

/-- State for the admin stop counterexample: an active round ending at
10000 and an eligible bid whose user has no wallet, so the closure
transaction invoked by the stop route aborts. -/
def stStop : St :=
  { emptySt with
    auctions := [aucW], rounds := [rndW],
    bids := [mkBidW "b1" "u1" 50 2 BidStatus.active] }

/-- C6 counterexample: the admin stop route retreats an active round's
`endTime`. At `now = 500` against a round ending at 10000, the route sets
`endTime := 500` outside the closure transaction; the closure itself
aborts (the winner's wallet is missing), so the store ends with the round
still `active` and its `endTime` moved to an earlier instant. -/
theorem adminStop_endTime_retreat :
    rndW.status = RoundStatus.active
    ∧ rndW.endTime = 10000
    ∧ roundFindById (adminStopAuction cfgW "a1" 500 stStop) "r1"
        = some { rndW with endTime := 500 }
    ∧ ({ rndW with endTime := 500 } : Round).status = RoundStatus.active
    ∧ (500 : Int) < 10000 := by
  exact ⟨rfl, rfl, rfl, rfl, by decide⟩

/-- C6 witness: a bid admitted at `now = 9980` against `r1` (end 10000,
threshold 60000) extends the round by exactly `extensionMs`. -/
theorem placeBid_endTime_monotone_witness :
    (placeBid cfgW "a1" "u2" 100 9980 stHold).2.rounds
      = if shouldExtendRound rndW.endTime 9980 cfgW.thresholdMs then
          stHold.rounds.map (fun r => if r.id = rndW.id then
            { r with endTime := extendRound rndW.endTime cfgW.extensionMs }
            else r)
        else stHold.rounds := by
  exact (placeBid_endTime_monotone cfgW "a1" "u2" 100 9980 stHold (by decide)
    (by decide)).2 rndW
    { id := "bid-0", userId := "u2", auctionId := "a1", roundId := "r1",
      amount := 100, timestamp := 9980, status := BidStatus.active }
    rfl rfl

/-- C9 witness: with active round `r1` (end 10000) present at `now =
20000`, StartRound returns `r1` and reschedules its closure to `now`. -/
theorem startRound_idempotent_witness :
    startRound cfgW "a1" 20000 { emptySt with auctions := [aucW], rounds := [rndW] }
      = .ok (rndW,
          if rndW.endTime ≤ 20000 then
            jobReschedule { emptySt with auctions := [aucW], rounds := [rndW] }
              "r1" 20000
          else { emptySt with auctions := [aucW], rounds := [rndW] })
    ∧ (jobReschedule { emptySt with auctions := [aucW], rounds := [rndW] }
        "r1" 20000).rounds
      = ({ emptySt with auctions := [aucW], rounds := [rndW] } : St).rounds := by
  have h := (startRound_idempotent cfgW "a1" 20000
      { emptySt with auctions := [aucW], rounds := [rndW] } aucW (by decide)
      (by decide)).1 rndW (by decide)
  exact ⟨h.1, h.2.1⟩

/-! ### C1: FinishRound closure -/

/-- C1: when FinishRound closes a round whose `endTime` has passed (over a
`userId`-unique wallet collection), the winners are exactly the first
`totalItems` bids of the ranking rule applied to the auction's bids with
status in `{active, outbid}`: at most `totalItems` bids are newly marked
`winning` at that closure; every bid whose id is a winner id has status
`winning` and every remaining eligible bid's id — a loser id — gets status
`outbid`, all other bids unchanged; each winner settles its user's wallet
with delta `(availableDelta = 0, lockedDelta = -amount)`, recorded as one
ledger entry per winner, leaving every wallet's available balance
untouched and its locked balance debited by its winners' total. -/
theorem finishRound_closure (cfg : Config) (rid : String) (now : Int)
    (st st' : St) (round : Round) (auction : Auction)
    (hfind : roundFindById st rid = some round)
    (hact : round.status = RoundStatus.active)
    (hend : round.endTime ≤ now)
    (hauc : auctionFindById st round.auctionId = some auction)
    (hndw : (st.wallets.map (fun w => w.userId)).Nodup)
    (hok : finishRound cfg rid now st = .ok st') :
    ((rankBids (bidsFindActiveByAuction st round.auctionId)).take
        auction.totalItems).length ≤ auction.totalItems
    ∧ st'.bids = st.bids.map (fun b =>
        if b.id ∈ ((rankBids (bidsFindActiveByAuction st round.auctionId)).drop
            auction.totalItems).map (fun b => b.id) then
          { b with status := BidStatus.outbid }
        else if b.id ∈ ((rankBids (bidsFindActiveByAuction st round.auctionId)).take
            auction.totalItems).map (fun b => b.id) then
          { b with status := BidStatus.winning }
        else b)
    ∧ st'.ledger = st.ledger
        ++ ((rankBids (bidsFindActiveByAuction st round.auctionId)).take
            auction.totalItems).map
          (fun b => mkLedgerEntry b.userId 0 (-b.amount) none)
    ∧ st'.wallets = st.wallets.map (fun w =>
        { w with lockedBalance := w.lockedBalance - settleSum w.userId ((rankBids (bidsFindActiveByAuction st round.auctionId)).take auction.totalItems) }) := by
  revert hok
  unfold finishRound
  rw [hfind]
  dsimp only
  rw [if_neg (by simp [hact]), if_neg (not_lt.mpr hend), hauc]
  dsimp only
  rcases hsettle : settleWinners
      (bidsUpdateManyStatus st
        (((rankBids (bidsFindActiveByAuction st round.auctionId)).take
          auction.totalItems).map (fun b => b.id)) BidStatus.winning)
      ((rankBids (bidsFindActiveByAuction st round.auctionId)).take
        auction.totalItems) with e | st2
  · rw [hsettle]
    intro hok; simp at hok
  · rw [hsettle]
    intro hok
    dsimp only at hok
    have hnd1 : ((bidsUpdateManyStatus st
        (((rankBids (bidsFindActiveByAuction st round.auctionId)).take
          auction.totalItems).map (fun b => b.id)) BidStatus.winning).wallets.map
        (fun w => w.userId)).Nodup := hndw
    obtain ⟨hw2, hl2, hb2, _, _, _, _, _, _⟩ :=
      settleWinners_ok _ _ _ hnd1 hsettle
    have hfold := foldl_cacheRemoveBid_fields round.auctionId
      ((rankBids (bidsFindActiveByAuction st round.auctionId)).take
        auction.totalItems)
      (auctionUpdate
        (roundUpdate
          (bidsUpdateManyStatus st2
            (((rankBids (bidsFindActiveByAuction st round.auctionId)).drop
              auction.totalItems).map (fun b => b.id)) BidStatus.outbid)
          round.id (fun r => { r with status := RoundStatus.closed }))
        auction.id (fun a => { a with currentRoundNumber := round.roundNumber }))
    have hbids2 : (bidsUpdateManyStatus st2
        (((rankBids (bidsFindActiveByAuction st round.auctionId)).drop
          auction.totalItems).map (fun b => b.id)) BidStatus.outbid).bids
        = st.bids.map (fun b =>
          if b.id ∈ ((rankBids (bidsFindActiveByAuction st round.auctionId)).drop
              auction.totalItems).map (fun b => b.id) then
            { b with status := BidStatus.outbid }
          else if b.id ∈ ((rankBids (bidsFindActiveByAuction st
              round.auctionId)).take auction.totalItems).map (fun b => b.id) then
            { b with status := BidStatus.winning }
          else b) := by
      unfold bidsUpdateManyStatus
      dsimp only
      rw [hb2]
      unfold bidsUpdateManyStatus
      dsimp only
      rw [List.map_map]
      apply List.map_congr_left
      intro b _
      by_cases hl : b.id ∈ List.drop auction.totalItems
          ((rankBids (bidsFindActiveByAuction st round.auctionId)).map
            (fun b => b.id)) <;>
        by_cases hwin : b.id ∈ List.take auction.totalItems
            ((rankBids (bidsFindActiveByAuction st round.auctionId)).map
              (fun b => b.id)) <;>
        simp [Function.comp, List.map_take, List.map_drop, hl, hwin]
    have hledger2 : (bidsUpdateManyStatus st2
        (((rankBids (bidsFindActiveByAuction st round.auctionId)).drop
          auction.totalItems).map (fun b => b.id)) BidStatus.outbid).ledger
        = st.ledger
          ++ ((rankBids (bidsFindActiveByAuction st round.auctionId)).take
              auction.totalItems).map
            (fun b => mkLedgerEntry b.userId 0 (-b.amount) none) := by
      unfold bidsUpdateManyStatus
      dsimp only
      rw [hl2]
      rfl
    have hwallets2 : (bidsUpdateManyStatus st2
        (((rankBids (bidsFindActiveByAuction st round.auctionId)).drop
          auction.totalItems).map (fun b => b.id)) BidStatus.outbid).wallets
        = st.wallets.map (fun w =>
          { w with lockedBalance := w.lockedBalance - settleSum w.userId ((rankBids (bidsFindActiveByAuction st round.auctionId)).take auction.totalItems) }) := by
      unfold bidsUpdateManyStatus
      dsimp only
      rw [hw2]
      rfl
    by_cases hstat : auction.status = AuctionStatus.active
    · rw [if_pos hstat] at hok
      obtain rfl := (Except.ok.inj hok)
      exact ⟨List.length_take_le _ _, hfold.1.trans hbids2,
        hfold.2.2.trans hledger2, hfold.2.1.trans hwallets2⟩
    · rw [if_neg hstat] at hok
      obtain rfl := (Except.ok.inj hok)
      exact ⟨List.length_take_le _ _, hfold.1.trans hbids2,
        hfold.2.2.trans hledger2, hfold.2.1.trans hwallets2⟩

/-- The state produced by closing round `r1` of the "simple round"
scenario at `now = 20000`. -/
def stSimpleClosed : St :=
  match finishRound cfgW "r1" 20000 stSimple with
  | .ok s => s
  | .error _ => stSimple

/-- C1 witness: closing the simple round (bids 50/100/150/200, two items)
settles exactly the top two bids — one `(0, -amount)` ledger entry each —
and debits only the two winners' locked balances. -/
theorem finishRound_closure_witness :
    ((rankBids (bidsFindActiveByAuction stSimple "a1")).take 2).length ≤ 2
    ∧ stSimpleClosed.ledger = stSimple.ledger
        ++ ((rankBids (bidsFindActiveByAuction stSimple "a1")).take 2).map
          (fun b => mkLedgerEntry b.userId 0 (-b.amount) none)
    ∧ stSimpleClosed.wallets = stSimple.wallets.map (fun w =>
        { w with lockedBalance := w.lockedBalance - settleSum w.userId ((rankBids (bidsFindActiveByAuction stSimple "a1")).take 2) }) := by
  have h := finishRound_closure cfgW "r1" 20000 stSimple stSimpleClosed rndW
    aucW rfl rfl (by decide) rfl (by decide) rfl
  exact ⟨h.1, h.2.2.1, h.2.2.2⟩

end AuctionCore
